import Mathlib

/-!
Shallow embedding of the metadata pipeline implemented in `src/app.py`
(Fundoo Tutor Metadata Writer): the QA validator `qa_check`, the
two-protocol generation fallback `call_openai_metadata`, and the job
`worker` state machine, together with theorems checking the
natural-language specification against this code.

Python strings are modelled as Lean `String` (sequences of Unicode code
points, matching Python's `len`/indexing semantics); Python `str` helpers
(`strip`, `splitlines`, substring `in`, `startswith`) are re-implemented
below following CPython's documented behaviour.
-/

namespace FT

/-! ### Python string primitives -/

/-- The whitespace set stripped by Python `str.strip()` (characters for
which `str.isspace()` holds). -/
def isPySpace (c : Char) : Bool :=
  c == ' ' || c == '\t' || c == '\n' || c == '\x0b' || c == '\x0c' || c == '\r' ||
  c == '\x1c' || c == '\x1d' || c == '\x1e' || c == '\x1f' || c == '\x85' || c == '\xa0' ||
  c == '\u1680' || c == '\u2000' || c == '\u2001' || c == '\u2002' || c == '\u2003' ||
  c == '\u2004' || c == '\u2005' || c == '\u2006' || c == '\u2007' || c == '\u2008' ||
  c == '\u2009' || c == '\u200a' || c == '\u2028' || c == '\u2029' || c == '\u202f' ||
  c == '\u205f' || c == '\u3000'

/-- Line boundary characters of Python `str.splitlines()`. -/
def isPyLineBreak (c : Char) : Bool :=
  c == '\n' || c == '\r' || c == '\x0b' || c == '\x0c' ||
  c == '\x1c' || c == '\x1d' || c == '\x1e' || c == '\x85' || c == '\u2028' || c == '\u2029'

/-- Python `str.strip()` with no argument: drop `isPySpace` characters
from both ends. -/
def pyStrip (s : String) : String :=
  String.mk (((s.data.dropWhile isPySpace).reverse.dropWhile isPySpace).reverse)

/-- Python `str.rstrip("\n")`: drop trailing newline characters. -/
def pyRstripNl (s : String) : String :=
  String.mk ((s.data.reverse.dropWhile (fun c => c == '\n')).reverse)

/-- Worker loop of Python `str.splitlines()`: `acc` holds the current
line's characters in reverse. `"\r\n"` counts as a single boundary. -/
def pySplitlinesAux : List Char → List Char → List String
  | [], acc => if acc.isEmpty then [] else [String.mk acc.reverse]
  | [c], acc =>
      if isPyLineBreak c then [String.mk acc.reverse]
      else [String.mk (c :: acc).reverse]
  | c1 :: c2 :: rest, acc =>
      if c1 = '\r' then
        String.mk acc.reverse ::
          (if c2 = '\n' then pySplitlinesAux rest []
           else pySplitlinesAux (c2 :: rest) [])
      else if isPyLineBreak c1 then String.mk acc.reverse :: pySplitlinesAux (c2 :: rest) []
      else pySplitlinesAux (c2 :: rest) (c1 :: acc)

/-- Python `str.splitlines()`. -/
def pySplitlines (s : String) : List String := pySplitlinesAux s.data []

/-- `strInfixAux n l`: `n` occurs as a contiguous run inside `l`. -/
def strInfixAux (n : List Char) : List Char → Bool
  | [] => n.isPrefixOf []
  | c :: rest => n.isPrefixOf (c :: rest) || strInfixAux n rest

/-- Python substring test `needle in hay`. -/
def containsSubstr (needle hay : String) : Bool :=
  strInfixAux needle.data hay.data

/-- Python `s.startswith(p)`. -/
def pyStartsWith (s p : String) : Bool :=
  p.data.isPrefixOf s.data

/-- Python `str.lower()`, restricted to ASCII case mapping: every
lowercase comparison in `app.py` is against a pure-ASCII literal, and no
non-ASCII code point lowercases to an ASCII letter, so this agrees with
CPython's full Unicode lowering on all the predicates embedded here. -/
def asciiLower (s : String) : String := String.mk (s.data.map Char.toLower)

/-- One decimal digit character. -/
def digitChar : Nat → Char
  | 0 => '0' | 1 => '1' | 2 => '2' | 3 => '3' | 4 => '4'
  | 5 => '5' | 6 => '6' | 7 => '7' | 8 => '8' | 9 => '9'
  | _ => '*'

/-- Fuel-driven decimal rendering of a natural number (the fuel is
always sufficient since `n < 10 ^ (n + 1)`). -/
def natCharsAux : Nat → Nat → List Char → List Char
  | 0, _, acc => acc
  | fuel + 1, n, acc =>
      let d := digitChar (n % 10)
      if n / 10 = 0 then d :: acc else natCharsAux fuel (n / 10) (d :: acc)

/-- Decimal rendering of a natural number, as interpolated by the
Python f-strings in `app.py`. -/
def natStr (n : Nat) : String := String.mk (natCharsAux (n + 1) n [])



/-! ### Data model

`ValidatedLink` mirrors the dicts produced by `validate_links` in
`app.py` (`{"url": u, "ok": ok, "title": title, "reason": reason}`). -/

structure ValidatedLink where
  url : String
  ok : Bool
  title : String
  reason : String
deriving DecidableEq, Repr

/-! ### QA validator (`qa_check` in `src/app.py`, lines 340-418) -/

/-- Python `str.split(sep)` for a one-character separator `sep`
(`"".split(sep) == [""]`). -/
def splitOnChar (sep : Char) : List Char → List (List Char)
  | [] => [[]]
  | c :: rest =>
      if c = sep then [] :: splitOnChar sep rest
      else
        match splitOnChar sep rest with
        | [] => [[c]]
        | g :: gs => (c :: g) :: gs

/-- Start code points of the Unicode 15.0 `Nd` (decimal digit) runs;
every `Nd` block is ten consecutive code points with values 0-9.
CPython's `\d` in `str` patterns matches exactly these characters, and
`int()` parses them by their digit value. -/
def pyDigitStarts : List Nat :=
  [0x30, 0x660, 0x6F0, 0x7C0, 0x966, 0x9E6, 0xA66, 0xAE6, 0xB66, 0xBE6,
   0xC66, 0xCE6, 0xD66, 0xDE6, 0xE50, 0xED0, 0xF20, 0x1040, 0x1090, 0x17E0,
   0x1810, 0x1946, 0x19D0, 0x1A80, 0x1A90, 0x1B50, 0x1BB0, 0x1C40, 0x1C50,
   0xA620, 0xA8D0, 0xA900, 0xA9D0, 0xA9F0, 0xAA50, 0xABF0, 0xFF10,
   0x104A0, 0x10D30, 0x11066, 0x110F0, 0x11136, 0x111D0, 0x112F0, 0x11450,
   0x114D0, 0x11650, 0x116C0, 0x11730, 0x118E0, 0x11950, 0x11C50, 0x11D50,
   0x11DA0, 0x11F50, 0x16A60, 0x16AC0, 0x16B50,
   0x1D7CE, 0x1D7D8, 0x1D7E2, 0x1D7EC, 0x1D7F6,
   0x1E140, 0x1E2F0, 0x1E4F0, 0x1E950, 0x1FBF0]

/-- The decimal value of a Unicode decimal digit, when `c` is one. -/
def pyDigitVal? (c : Char) : Option Nat :=
  pyDigitStarts.findSome? fun s =>
    if s ≤ c.toNat ∧ c.toNat ≤ s + 9 then some (c.toNat - s) else none

/-- `\d` of the source's timestamp regex: any Unicode decimal digit. -/
def isPyDigit (c : Char) : Bool := (pyDigitVal? c).isSome

/-- Python `int` on a string of Unicode decimal digits. -/
def decDigitsToNat (ds : List Char) : Nat :=
  ds.foldl (fun a c => a * 10 + (pyDigitVal? c).getD 0) 0

/-- `_mmss_to_sec(x)`: `m, s = x.split(":"); return int(m) * 60 + int(s)`.
It is only applied to strings of shape `dd:dd` produced by the
timestamp regex, where `int` is decimal-digit evaluation. -/
def mmss_to_sec (x : String) : Nat :=
  match splitOnChar ':' x.data with
  | [m, s] => decDigitsToNat m * 60 + decDigitsToNat s
  | _ => 0


/-- The three required title labels (`required_labels` in `qa_check`). -/
def required_labels : List String :=
  ["Option 1 (Highest SEO Reach)",
   "Option 2 (Parent High-Intent)",
   "Option 3 (Authority Explainer)"]

/-- The lines list computed at the top of `qa_check`:
`[l.rstrip("\n") for l in txt.splitlines()]`. -/
def qaLines (txt : String) : List String :=
  (pySplitlines txt).map pyRstripNl

/-- `non_empty = [l.strip() for l in lines if l.strip()]`. -/
def qaNonEmpty (txt : String) : List String :=
  ((qaLines txt).map pyStrip).filter (fun l => l ≠ "")

/-- The dash violation text. -/
def dashMsg : String := "Contains an em dash/en dash (—/–)."

/-- The violation text `f"Missing title label: {lab}"`. -/
def missingMsg (lab : String) : String := "Missing title label: " ++ lab

/-- The violation text `f"No title text found after {lab}"`. -/
def noTitleMsg (lab : String) : String := "No title text found after " ++ lab

/-- The Watch-Next-without-links violation text. -/
def watchNotProvidedMsg : String := "Watch Next present but links were not provided."

/-- The Watch-Next-without-valid-links violation text. -/
def watchNoValidMsg : String := "Watch Next present but no valid links remained."

/-- The missing-tags-line violation text. -/
def tagsNotDetectedMsg : String :=
  "Tags line not detected (expected one comma-separated line at the end)."

/-- The timestamp-ordering violation text. -/
def tsOrderMsg : String :=
  "Education Problems timestamps are not strictly increasing or contain duplicates."

/-- Dash rule: `if "—" in txt or "–" in txt`. -/
def dashIssues (txt : String) : List String :=
  if containsSubstr "—" txt || containsSubstr "–" txt then [dashMsg] else []

/-- Missing-label rule: `for lab in required_labels: if lab not in txt`. -/
def missingIssues (txt : String) : List String :=
  required_labels.filterMap fun lab =>
    if containsSubstr lab txt then none else some (missingMsg lab)

/-- The violation text `f"Title length {L} after {lab} (must be 60–75)."`. -/
def titleLenMsg (L : Nat) (lab : String) : String :=
  "Title length " ++ natStr L ++ " after " ++ lab ++ " (must be 60–75)."

/-- Scan for the first line whose `strip()` equals `lab` and return the
lines after it (the `idx`/`break` search in `qa_check`). -/
def afterLabel (lab : String) : List String → Option (List String)
  | [] => none
  | l :: rest => if pyStrip l = lab then some rest else afterLabel lab rest

/-- Title-length rule body for one label: skip blank lines after the
label line, then check the stripped length of the next line. -/
def titleIssueFor (lines : List String) (lab : String) : List String :=
  match afterLabel lab lines with
  | none => []
  | some rest =>
      match rest.dropWhile (fun l => pyStrip l = "") with
      | [] => [noTitleMsg lab]
      | l :: _ =>
          let L := (pyStrip l).length
          if L < 60 || L > 75 then [titleLenMsg L lab] else []

/-- Title-length rule over all three labels, in order. -/
def titleIssues (lines : List String) : List String :=
  required_labels.flatMap (titleIssueFor lines)

/-- `any(l.strip().lower().startswith("watch next") for l in lines)`. -/
def hasWatchNext (lines : List String) : Bool :=
  lines.any fun l => pyStartsWith (asciiLower (pyStrip l)) "watch next"

/-- Watch-Next rule (`qa_check` lines 382-388). -/
def watchIssues (lines : List String) (link_mode : String)
    (validated_links : List ValidatedLink) : List String :=
  let has := hasWatchNext lines
  let valid_count := validated_links.countP (fun x => x.ok)
  (if link_mode ≠ "provided" ∧ has then [watchNotProvidedMsg] else []) ++
  (if link_mode = "provided" ∧ valid_count = 0 ∧ has then [watchNoValidMsg] else [])

/-- The violation text `f"Tags line is {n} chars (must be <= 500)."`. -/
def tagsLenMsg (n : Nat) : String :=
  "Tags line is " ++ natStr n ++ " chars (must be <= 500)."

/-- Tags rule (`qa_check` lines 390-395), applied to `non_empty`. -/
def tagsIssues (non_empty : List String) : List String :=
  match non_empty.getLast? with
  | none => []
  | some last =>
      if ¬ containsSubstr "," last then [tagsNotDetectedMsg]
      else if last.length > 500 then [tagsLenMsg last.length]
      else []

/-- Scan for the first line with `line.strip().lower().startswith("type")`
and return the lines after it (`type_idx` search in `qa_check`). -/
def afterTypeLine : List String → Option (List String)
  | [] => none
  | l :: rest =>
      if pyStartsWith (asciiLower (pyStrip l)) "type" then some rest
      else afterTypeLine rest

/-- `re.match(r"^(\d{2}:\d{2})\s+.+", line.strip())`, returning the
captured `MM:SS` group.  On a stripped string (which cannot end in
whitespace) the regex matches exactly when the string has two Unicode
decimal digits, a colon, two Unicode decimal digits, a whitespace
character, and at least one further character. -/
def matchTimestamp (line : String) : Option String :=
  match (pyStrip line).data with
  | d1 :: d2 :: c :: d3 :: d4 :: w :: _ :: _ =>
      if isPyDigit d1 && isPyDigit d2 && c == ':' && isPyDigit d3 && isPyDigit d4 &&
         isPySpace w then
        some (String.mk [d1, d2, ':', d3, d4])
      else none
  | _ => none

/-- The violation text `f"Education Problems has {n} lines (must be up to 8 when justified)."`. -/
def tsCountMsg (n : Nat) : String :=
  "Education Problems has " ++ natStr n ++ " lines (must be up to 8 when justified)."

/-- `any(secs[i] >= secs[i + 1] for i in range(len(secs) - 1))`. -/
def hasNonIncreasing : List Nat → Bool
  | a :: b :: rest => decide (a ≥ b) || hasNonIncreasing (b :: rest)
  | _ => false

/-- The `ts` list of `qa_check`: timestamp groups collected from the
lines after the `Type` line (empty when there is no such line). -/
def tsOf (lines : List String) : List String :=
  match afterTypeLine lines with
  | none => []
  | some after => after.filterMap matchTimestamp

/-- Timestamp rule (`qa_check` lines 397-416). -/
def tsIssues (lines : List String) : List String :=
  let ts := tsOf lines
  if ts ≠ [] then
    let secs := ts.map mmss_to_sec
    (if hasNonIncreasing secs then [tsOrderMsg] else []) ++
    (if ts.length > 8 then [tsCountMsg ts.length] else [])
  else []

/-- `qa_check(output_text, link_mode, validated_links)` from
`src/app.py`: the six rule blocks, appending their violations in source
order. -/
def qa_check (output_text : String) (link_mode : String)
    (validated_links : List ValidatedLink) : List String :=
  let txt := output_text
  let lines := qaLines txt
  dashIssues txt
    ++ missingIssues txt
    ++ titleIssues lines
    ++ watchIssues lines link_mode validated_links
    ++ tagsIssues (qaNonEmpty txt)
    ++ tsIssues lines


/-! ### Generation client (`call_openai_metadata`, `src/app.py` lines 437-503)

The two OpenAI endpoints are abstracted as an oracle giving, per model
name, the outcome of one call.  Within a single `call_openai_metadata`
invocation the instruction and user payloads are fixed, so the outcome
of an attempt depends only on the model name and the protocol used. -/

/-- Outcome of one API call: the service either returns text (for the
Responses protocol, `getattr(resp, "output_text", None) or ""`; for Chat
Completions, `cc.choices[0].message.content or ""`) or raises, with
`failure` carrying `str(e)`. -/
inductive ApiResult where
  | success (text : String)
  | failure (err : String)
deriving DecidableEq, Repr

/-- Deterministic environment for one `call_openai_metadata` invocation. -/
structure GenOracle where
  responses : String → ApiResult
  chat : String → ApiResult

/-- `models_to_try = [primary] + [m for m in fallbacks if m != primary]`
with `primary = cfg["OPENAI_MODEL"].strip()` and the fallback list split
on commas, stripped, empties dropped. -/
def models_to_try (cfgModel cfgFallbacks : String) : List String :=
  let primary := pyStrip cfgModel
  let fallbacks :=
    (((splitOnChar ',' cfgFallbacks.data).map (fun g => pyStrip (String.mk g)))).filter
      (fun m => m ≠ "")
  primary :: fallbacks.filter (fun m => m ≠ primary)

/-- The early-break test of pass 1: `"api.responses.write" in last_err`. -/
def scopeBreak (err : String) : Bool := containsSubstr "api.responses.write" err

/-- Pass 1 (`# 1) Try Responses API (preferred)`): on success return the
stripped text immediately; on failure record the error and continue,
except that a permission-scope error aborts the pass.  `.error e`
carries the value of `last_err` when the pass ends without returning. -/
def tryResponsesPass (respond : String → ApiResult) :
    List String → String → Except String String
  | [], lastErr => .error lastErr
  | m :: rest, _ =>
      match respond m with
      | .success t => .ok (pyStrip t)
      | .failure e => if scopeBreak e then .error e else tryResponsesPass respond rest e

/-- Pass 2 (`# 2) Fallback: Chat Completions API`): a non-empty stripped
result returns immediately; an empty success records
`"Empty response from chat.completions."` and continues; a failure
records `str(e)` and continues. -/
def tryChatPass (chat : String → ApiResult) :
    List String → String → Except String String
  | [], lastErr => .error lastErr
  | m :: rest, _ =>
      match chat m with
      | .success t =>
          let out := pyStrip t
          if out ≠ "" then .ok out
          else tryChatPass chat rest "Empty response from chat.completions."
      | .failure e => tryChatPass chat rest e

/-- The `RuntimeError` message raised when both passes are exhausted. -/
def genFailMsg (lastErr : String) : String :=
  "OpenAI request failed.\n\n" ++
  "Last error: " ++ lastErr ++ "\n\n" ++
  "If you see missing scopes (example: api.responses.write), create a Project API key with All permissions " ++
  "or enable Write access for the Responses API in your key permissions."

/-- The `RuntimeError` raised by `get_client` when the key is missing. -/
def keyMissingMsg : String :=
  "OPENAI_API_KEY is missing. Go to Settings and save your API key."

/-- `call_openai_metadata`: build the model list, require an API key,
run pass 1 then pass 2, and raise `genFailMsg` of the last recorded
error if both passes are exhausted.  `.error` models a raised
`RuntimeError` with the given message. -/
def call_openai_metadata (o : GenOracle) (apiKey cfgModel cfgFallbacks : String) :
    Except String String :=
  let models := models_to_try cfgModel cfgFallbacks
  if pyStrip apiKey = "" then .error keyMissingMsg
  else
    match tryResponsesPass o.responses models "" with
    | .ok t => .ok t
    | .error e1 =>
        match tryChatPass o.chat models e1 with
        | .ok t => .ok t
        | .error e2 => .error (genFailMsg e2)

/-- Every model of `pre` fails under the Responses protocol without the
permission-scope signature. -/
def nonScopeFailures (respond : String → ApiResult) (pre : List String) : Prop :=
  ∀ m ∈ pre, ∃ e, respond m = .failure e ∧ scopeBreak e = false

/-- Pass 1 returns: some model, after only non-scope failures, succeeds. -/
def firstProtocolReturns (o : GenOracle) (models : List String) : Prop :=
  ∃ pre m post t, models = pre ++ m :: post ∧ nonScopeFailures o.responses pre ∧
    o.responses m = .success t

/-- A pass-2 attempt that does not return: a raised error or an
empty-after-strip success. -/
def chatSkips (o : GenOracle) (m : String) : Prop :=
  (∃ e, o.chat m = .failure e) ∨ ∃ t, o.chat m = .success t ∧ pyStrip t = ""

/-- Pass 2 returns: some model, after only non-returning attempts,
succeeds with a non-empty stripped result. -/
def secondProtocolReturns (o : GenOracle) (models : List String) : Prop :=
  ∃ pre m post t, models = pre ++ m :: post ∧ (∀ m' ∈ pre, chatSkips o m') ∧
    o.chat m = .success t ∧ pyStrip t ≠ ""

/-- The value of `last_err` when pass 2 exhausts the list: determined
by the final model's Chat Completions outcome. -/
def lastChatErr (chat : String → ApiResult) (m : String) : String :=
  match chat m with
  | .failure e => e
  | .success _ => "Empty response from chat.completions."

/-! ### Job worker (`worker` in `src/app.py`, lines 980-1059)

Job records and `update_job` keyword updates are modelled explicitly;
the worker is embedded as the trace of job-record updates and external
invocations it performs, driven by an environment supplying the outcome
of each external call.  Audio timing values (floats in the source) are
modelled as rationals. -/

/-- One speech segment from the transcription engine
(`(s.start, s.end, s.text)`). -/
structure Seg where
  start : ℚ
  stop : ℚ
  text : String

/-- A job record (the dict created in `/api/start`). -/
structure Job where
  progress : Int
  stage : String
  done : Bool
  error : Option String
  transcript : String
  metadata : String
  qa_issues : List String
  qa_pass : Option Bool
deriving DecidableEq, Repr

/-- The job record as created on submission (`app.py` lines 948-959). -/
def initJob : Job where
  progress := 1
  stage := "Queued…"
  done := false
  error := none
  transcript := ""
  metadata := ""
  qa_issues := []
  qa_pass := none

/-- One `update_job(job_id, **kwargs)` call: each field is `some v` when
the keyword is passed. -/
structure JobUpdate where
  progress : Option Int := none
  stage : Option String := none
  done : Option Bool := none
  error : Option String := none
  transcript : Option String := none
  metadata : Option String := none
  qa_issues : Option (List String) := none
  qa_pass : Option Bool := none
deriving DecidableEq, Repr

/-- `jobs[job_id].update(kwargs)`. -/
def applyUpdate (j : Job) (u : JobUpdate) : Job where
  progress := u.progress.getD j.progress
  stage := u.stage.getD j.stage
  done := u.done.getD j.done
  error := match u.error with | some e => some e | none => j.error
  transcript := u.transcript.getD j.transcript
  metadata := u.metadata.getD j.metadata
  qa_issues := u.qa_issues.getD j.qa_issues
  qa_pass := match u.qa_pass with | some b => some b | none => j.qa_pass

/-- One observable step of the worker: a job-record update, an external
invocation, or the final upload deletion. -/
inductive Event where
  | update (u : JobUpdate)
  | callExtract
  | callFfprobe
  | callWhisperLoad
  | callTranscribe
  | callValidateLinks (urls : List String)
  | callGenerate
  | callQaCheck
  | deleteUpload
deriving DecidableEq, Repr

/-- Environment: outcomes of the worker's external calls.  `duration` is
the value of `ffprobe_duration(str(wav)) or 0.0` (that helper catches
its own errors and the `or` maps a falsy result to `0.0`). -/
structure WorkerEnv where
  extract : Except String Unit
  duration : ℚ
  load : Except String Unit
  transcribe : Except String (List Seg)
  validate : List String → List ValidatedLink
  generate : Except String String

/-- Python `int()` on a rational: truncation toward zero. -/
def pyInt (q : ℚ) : Int := if 0 ≤ q then ⌊q⌋ else -⌊-q⌋

/-- Python `f"{n:02d}"`. -/
def fmt02 (n : Int) : String :=
  if n < 0 then "-" ++ natStr (-n).toNat
  else if n < 10 then "0" ++ natStr n.toNat
  else natStr n.toNat

/-- One transcript line:
`f"{int(s.start//60):02d}:{int(s.start%60):02d} {s.text.strip()}"`. -/
def segLine (s : Seg) : String :=
  fmt02 ⌊s.start / 60⌋ ++ ":" ++ fmt02 (⌊s.start⌋ - 60 * ⌊s.start / 60⌋) ++ " " ++
    pyStrip s.text

/-- Progress advance for one segment: when the duration is known,
`p = 20 + int(55 * min(1.0, s.end / dur))`, written only if it exceeds
`last_pct`. -/
def transcribeStep (dur : ℚ) (lastPct : Int) (s : Seg) : Option Int :=
  if 0 < dur then
    let covered := min 1 (s.stop / dur)
    let p := 20 + pyInt (55 * covered)
    if lastPct < p then some p else none
  else none

/-- The `for s in segments` loop: transcript lines plus the progress
updates it emits, threading `last_pct`. -/
def transcribeLoop (dur : ℚ) : List Seg → Int → List String × List Event
  | [], _ => ([], [])
  | s :: rest, lastPct =>
      let line := segLine s
      match transcribeStep dur lastPct s with
      | some p =>
          let lp := transcribeLoop dur rest p
          (line :: lp.1,
           Event.update { progress := some p, stage := some "Transcribing audio…" } :: lp.2)
      | none =>
          let lp := transcribeLoop dur rest lastPct
          (line :: lp.1, lp.2)

/-- `parse_links` (`app.py` lines 304-306). -/
def parse_links (text : String) : List String :=
  (((pySplitlines text).map pyStrip).filter (fun l => l ≠ "")).filter
    (fun l => pyStartsWith l "http://" || pyStartsWith l "https://")

/-- The fixed three-line hard-stop message written as `metadata`. -/
def hardStopMessage : String :=
  "I can see the uploaded video file.\n" ++
  "Have you checked the sheet for uploaded video links?\n" ++
  "Please check the reporting sheet. You can find the uploaded video links from the reporting sheet. Use YouTube channel filters. Then copy and paste all the YouTube links from the sheet."

/-- The `RuntimeError` message for an empty assembled transcript. -/
def emptyTranscriptMsg : String :=
  "Transcript is empty. Check the audio track in your file."

/-- The hard-stop `update_job` call (`app.py` lines 984-997). -/
def hardStopUpdate : JobUpdate where
  progress := some 100
  stage := some "Stopped (Hard Stop)."
  done := some true
  transcript := some ""
  metadata := some hardStopMessage
  qa_pass := some true
  qa_issues := some []

/-- An `update_job(progress=p, stage=st)` call. -/
def progUpd (p : Int) (st : String) : JobUpdate where
  progress := some p
  stage := some st

/-- The `except` handler:
`update_job(job_id, done=True, error=str(e), stage="Error", progress=100)`. -/
def failUpd (e : String) : JobUpdate where
  done := some true
  error := some e
  stage := some "Error"
  progress := some 100

/-- The `try` body of `worker`, as its trace of events.  A raised
exception (from a failing external call or the empty-transcript check)
jumps to the `except` handler, which emits `failUpd`. -/
def workerBody (env : WorkerEnv) (link_mode links_text : String) : List Event :=
  if link_mode = "not_provided" then [.update hardStopUpdate]
  else
    .update (progUpd 5 "Extracting audio…") ::
    .callExtract ::
    match env.extract with
    | .error e => [.update (failUpd e)]
    | .ok _ =>
      .callFfprobe ::
      .update (progUpd 15 "Loading speech model… (first run may take time)") ::
      .callWhisperLoad ::
      match env.load with
      | .error e => [.update (failUpd e)]
      | .ok _ =>
        .update (progUpd 20 "Transcribing audio…") ::
        .callTranscribe ::
        match env.transcribe with
        | .error e => [.update (failUpd e)]
        | .ok segs =>
          let lp := transcribeLoop env.duration segs 20
          lp.2 ++
          (let transcript := pyStrip (String.intercalate "\n" lp.1)
           if transcript = "" then [.update (failUpd emptyTranscriptMsg)]
           else
             .update (progUpd 80 "Validating links…") ::
             (let urls := parse_links links_text
              let vstep : List ValidatedLink × List Event :=
                if link_mode = "provided" ∧ urls ≠ [] then
                  (env.validate urls, [.callValidateLinks urls])
                else ([], [])
              vstep.2 ++
              (.update (progUpd 88 "Generating metadata…") ::
               .callGenerate ::
               match env.generate with
               | .error e => [.update (failUpd e)]
               | .ok metadata =>
                 .update (progUpd 96 "Final process check…") ::
                 .callQaCheck ::
                 let issues := qa_check metadata link_mode vstep.1
                 [.update { qa_issues := some issues, qa_pass := some issues.isEmpty },
                  .update { progress := some 100, stage := some "Done.", done := some true,
                            transcript := some transcript, metadata := some metadata }])))

/-- The full worker trace: the `try` body followed by the `finally`
upload deletion. -/
def worker (env : WorkerEnv) (link_mode links_text : String) : List Event :=
  workerBody env link_mode links_text ++ [.deleteUpload]

/-- Replay the job-record updates of a trace onto a job snapshot. -/
def runJob (j : Job) : List Event → Job
  | [] => j
  | .update u :: rest => runJob (applyUpdate j u) rest
  | _ :: rest => runJob j rest

/-- The progress value written by an event, if any. -/
def eventProgress : Event → Option Int
  | .update u => u.progress
  | _ => none

/-- Whether an event invokes one of the worker's pipeline collaborators
(audio extraction, probing, engine load, transcription, link
validation, generation, or the QA check). -/
def isExternalCall : Event → Bool
  | .update _ => false
  | .deleteUpload => false
  | _ => true

/-! ### Distinctness of the violation message families

Each QA rule emits messages with a fixed 13-character opening; the
openings separate every pair of rule families, so membership of a given
message in the full violation list is decided by its own rule. -/

theorem str_ne_of_take (n : Nat) {s t : String} (h : s.data.take n ≠ t.data.take n) :
    s ≠ t :=
  fun e => h (by rw [e])

theorem missingMsg_t13 (lab : String) :
    (missingMsg lab).data.take 13 = "Missing title".data := by
  simp only [missingMsg, String.data_append]
  rw [List.take_append_of_le_length (by decide)]
  decide

theorem noTitleMsg_t13 (lab : String) :
    (noTitleMsg lab).data.take 13 = "No title text".data := by
  simp only [noTitleMsg, String.data_append]
  rw [List.take_append_of_le_length (by decide)]
  decide

theorem titleLenMsg_t13 (L : Nat) (lab : String) :
    (titleLenMsg L lab).data.take 13 = "Title length ".data := by
  simp only [titleLenMsg, String.data_append, List.append_assoc]
  rw [List.take_append_of_le_length (by decide)]
  decide

theorem tagsLenMsg_t13 (n : Nat) :
    (tagsLenMsg n).data.take 13 = "Tags line is ".data := by
  simp only [tagsLenMsg, String.data_append, List.append_assoc]
  rw [List.take_append_of_le_length (by decide)]
  decide

theorem tsCountMsg_t13 (n : Nat) :
    (tsCountMsg n).data.take 13 = "Education Pro".data := by
  simp only [tsCountMsg, String.data_append, List.append_assoc]
  rw [List.take_append_of_le_length (by decide)]
  decide

theorem tsCountMsg_t23 (n : Nat) :
    (tsCountMsg n).data.take 23 = "Education Problems has ".data := by
  simp only [tsCountMsg, String.data_append, List.append_assoc]
  rw [List.take_append_of_le_length (by decide)]
  decide

/-! Digit strings contain no space, so the numeric hole of a message
template cannot absorb the delimiter that follows it. -/

theorem digitChar_ne_space (d : Nat) : digitChar d ≠ ' ' := by
  unfold digitChar
  split <;> decide

theorem natCharsAux_ne_space :
    ∀ (fuel n : Nat) (acc : List Char), (∀ c ∈ acc, c ≠ ' ') →
      ∀ c ∈ natCharsAux fuel n acc, c ≠ ' '
  | 0, _, _, hacc => hacc
  | fuel + 1, n, acc, hacc => by
      rw [natCharsAux]
      split
      · intro c hc
        rcases List.mem_cons.mp hc with h | h
        · subst h; exact digitChar_ne_space _
        · exact hacc c h
      · exact natCharsAux_ne_space fuel (n / 10) _
          (by
            intro c hc
            rcases List.mem_cons.mp hc with h | h
            · subst h; exact digitChar_ne_space _
            · exact hacc c h)

theorem natStr_ne_space (n : Nat) : ∀ c ∈ (natStr n).data, c ≠ ' ' :=
  natCharsAux_ne_space (n + 1) n [] (by intro c hc; cases hc)

/-- Two spaceless runs followed by a space-headed tail split uniquely. -/
theorem nospace_space_split :
    ∀ (x₁ : List Char) (x₂ : List Char) (r₁ r₂ : List Char),
      (∀ c ∈ x₁, c ≠ ' ') → (∀ c ∈ x₂, c ≠ ' ') →
      x₁ ++ ' ' :: r₁ = x₂ ++ ' ' :: r₂ → x₁ = x₂ ∧ r₁ = r₂
  | [], [], r₁, r₂, _, _, h => by simpa using h
  | [], c :: t, r₁, r₂, _, h₂, h => by
      simp only [List.nil_append, List.cons_append, List.cons.injEq] at h
      exact absurd h.1.symm (h₂ c (by simp))
  | c :: t, [], r₁, r₂, h₁, _, h => by
      simp only [List.nil_append, List.cons_append, List.cons.injEq] at h
      exact absurd h.1 (h₁ c (by simp))
  | c₁ :: t₁, c₂ :: t₂, r₁, r₂, h₁, h₂, h => by
      simp only [List.cons_append, List.cons.injEq] at h
      have ih := nospace_space_split t₁ t₂ r₁ r₂
        (fun c hc => h₁ c (List.mem_cons_of_mem _ hc))
        (fun c hc => h₂ c (List.mem_cons_of_mem _ hc)) h.2
      exact ⟨by rw [h.1, ih.1], ih.2⟩

/-- Among the three required labels, a title-length message determines
its label. -/
theorem titleLenMsg_lab_eq {L₁ L₂ : Nat} {lab₁ lab₂ : String}
    (m₁ : lab₁ ∈ required_labels) (m₂ : lab₂ ∈ required_labels)
    (h : titleLenMsg L₁ lab₁ = titleLenMsg L₂ lab₂) : lab₁ = lab₂ := by
  have hd := congrArg String.data h
  simp only [titleLenMsg, String.data_append, List.append_assoc, List.cons_append,
    List.nil_append] at hd
  simp only [List.cons.injEq, true_and] at hd
  have hsplit := nospace_space_split _ _ _ _ (natStr_ne_space L₁) (natStr_ne_space L₂) hd
  have htail := hsplit.2
  simp only [List.cons.injEq, true_and] at htail
  simp only [required_labels, List.mem_cons, List.not_mem_nil, or_false] at m₁ m₂
  rcases m₁ with rfl | rfl | rfl <;> rcases m₂ with rfl | rfl | rfl <;>
    first
      | rfl
      | exact absurd htail (by decide)

/-- A missing-label message determines its label. -/
theorem missingMsg_inj {lab₁ lab₂ : String} (h : missingMsg lab₁ = missingMsg lab₂) :
    lab₁ = lab₂ := by
  have hd := congrArg String.data h
  simp only [missingMsg, String.data_append] at hd
  exact String.ext (List.append_cancel_left hd)

/-! ### Membership in the individual QA rule outputs -/

theorem mem_dashIssues {txt s : String} :
    s ∈ dashIssues txt ↔
      (containsSubstr "—" txt || containsSubstr "–" txt) = true ∧ s = dashMsg := by
  unfold dashIssues
  split <;> simp_all

theorem mem_missingIssues {txt s : String} :
    s ∈ missingIssues txt ↔
      ∃ lab ∈ required_labels, containsSubstr lab txt = false ∧ s = missingMsg lab := by
  simp only [missingIssues, List.mem_filterMap]
  constructor
  · rintro ⟨lab, hlab, hsome⟩
    by_cases hc : containsSubstr lab txt
    · simp [hc] at hsome
    · simp only [hc, if_false] at hsome
      exact ⟨lab, hlab, by simpa using hc, (Option.some_inj.mp hsome).symm⟩
  · rintro ⟨lab, hlab, hc, rfl⟩
    exact ⟨lab, hlab, by simp [hc]⟩

theorem titleIssueFor_shape {lines : List String} {lab s : String}
    (h : s ∈ titleIssueFor lines lab) :
    s = noTitleMsg lab ∨ ∃ L, s = titleLenMsg L lab := by
  unfold titleIssueFor at h
  split at h
  · cases h
  · split at h
    · exact .inl (by simpa using h)
    · dsimp only at h
      split at h
      · exact .inr ⟨_, by simpa using h⟩
      · cases h

theorem mem_titleIssues {lines : List String} {s : String} :
    s ∈ titleIssues lines ↔ ∃ lab ∈ required_labels, s ∈ titleIssueFor lines lab := by
  simp [titleIssues, List.mem_flatMap]

theorem mem_watchIssues {lines : List String} {mode s : String}
    {links : List ValidatedLink} :
    s ∈ watchIssues lines mode links ↔
      ((mode ≠ "provided" ∧ hasWatchNext lines = true) ∧ s = watchNotProvidedMsg) ∨
      ((mode = "provided" ∧ links.countP (fun x => x.ok) = 0 ∧ hasWatchNext lines = true) ∧
        s = watchNoValidMsg) := by
  by_cases h1 : mode ≠ "provided" ∧ hasWatchNext lines = true <;>
    by_cases h2 : mode = "provided" ∧ links.countP (fun x => x.ok) = 0 ∧
        hasWatchNext lines = true <;>
    simp [watchIssues, h1, h2]

theorem mem_tagsIssues {non_empty : List String} {s : String} :
    s ∈ tagsIssues non_empty ↔
      ∃ last, non_empty.getLast? = some last ∧
        ((containsSubstr "," last = false ∧ s = tagsNotDetectedMsg) ∨
         (containsSubstr "," last = true ∧ last.length > 500 ∧ s = tagsLenMsg last.length)) := by
  unfold tagsIssues
  split
  · rename_i heq
    simp [heq]
  · rename_i last heq
    rw [heq]
    by_cases hc : containsSubstr "," last
    · by_cases hl : last.length > 500 <;> simp [hc, hl]
    · simp [hc]

theorem mem_tsIssues {lines : List String} {s : String} :
    s ∈ tsIssues lines ↔
      tsOf lines ≠ [] ∧
        ((hasNonIncreasing ((tsOf lines).map mmss_to_sec) = true ∧ s = tsOrderMsg) ∨
         ((tsOf lines).length > 8 ∧ s = tsCountMsg (tsOf lines).length)) := by
  by_cases hne : tsOf lines ≠ [] <;>
    by_cases ho : hasNonIncreasing ((tsOf lines).map mmss_to_sec) <;>
    by_cases hc : (tsOf lines).length > 8 <;>
    simp [tsIssues, hne, ho, hc]

/-- `qa_check` unfolded to its six rule blocks. -/
theorem qa_check_eq (txt mode : String) (links : List ValidatedLink) :
    qa_check txt mode links =
      dashIssues txt ++ missingIssues txt ++ titleIssues (qaLines txt) ++
        watchIssues (qaLines txt) mode links ++ tagsIssues (qaNonEmpty txt) ++
        tsIssues (qaLines txt) := rfl

theorem not_mem_dashIssues {txt s : String} (h : s ≠ dashMsg) : s ∉ dashIssues txt :=
  fun hm => h (mem_dashIssues.mp hm).2

theorem not_mem_missingIssues {txt s : String} (h : ∀ lab, s ≠ missingMsg lab) :
    s ∉ missingIssues txt := by
  intro hm
  obtain ⟨lab, _, _, he⟩ := mem_missingIssues.mp hm
  exact h lab he

theorem not_mem_titleIssues {lines : List String} {s : String}
    (h1 : ∀ lab, s ≠ noTitleMsg lab) (h2 : ∀ L lab, s ≠ titleLenMsg L lab) :
    s ∉ titleIssues lines := by
  intro hm
  obtain ⟨lab, _, hf⟩ := mem_titleIssues.mp hm
  rcases titleIssueFor_shape hf with he | ⟨L, he⟩
  · exact h1 lab he
  · exact h2 L lab he

theorem not_mem_watchIssues {lines : List String} {mode s : String}
    {links : List ValidatedLink}
    (h1 : s ≠ watchNotProvidedMsg) (h2 : s ≠ watchNoValidMsg) :
    s ∉ watchIssues lines mode links := by
  intro hm
  rcases mem_watchIssues.mp hm with ⟨_, he⟩ | ⟨_, he⟩
  · exact h1 he
  · exact h2 he

theorem not_mem_tagsIssues {non_empty : List String} {s : String}
    (h1 : s ≠ tagsNotDetectedMsg) (h2 : ∀ n, s ≠ tagsLenMsg n) :
    s ∉ tagsIssues non_empty := by
  intro hm
  obtain ⟨last, _, hd⟩ := mem_tagsIssues.mp hm
  rcases hd with ⟨_, he⟩ | ⟨_, _, he⟩
  · exact h1 he
  · exact h2 _ he

theorem not_mem_tsIssues {lines : List String} {s : String}
    (h1 : s ≠ tsOrderMsg) (h2 : ∀ n, s ≠ tsCountMsg n) :
    s ∉ tsIssues lines := by
  intro hm
  obtain ⟨_, hd⟩ := mem_tsIssues.mp hm
  rcases hd with ⟨_, he⟩ | ⟨_, he⟩
  · exact h1 he
  · exact h2 _ he

/-! ### Claim theorems -/

/-- **C7.** For every QA input, the validator detects a "Watch Next"
section by a case-insensitive line prefix and emits the "present but not
provided" violation if and only if such a section exists and `linkMode`
is not `"provided"`, and the "present but no valid links" violation if
and only if such a section exists, `linkMode` is `"provided"`, and zero
entries of the validated-link list have `ok = true`. -/
theorem c7_watch_next (txt mode : String) (links : List ValidatedLink) :
    (watchNotProvidedMsg ∈ qa_check txt mode links ↔
      hasWatchNext (qaLines txt) = true ∧ mode ≠ "provided") ∧
    (watchNoValidMsg ∈ qa_check txt mode links ↔
      hasWatchNext (qaLines txt) = true ∧ mode = "provided" ∧
        links.countP (fun x => x.ok) = 0) := by
  have hnpD : watchNotProvidedMsg ≠ dashMsg := by decide
  have hnpM : ∀ lab, watchNotProvidedMsg ≠ missingMsg lab :=
    fun lab => str_ne_of_take 13 (by rw [missingMsg_t13]; decide)
  have hnpN : ∀ lab, watchNotProvidedMsg ≠ noTitleMsg lab :=
    fun lab => str_ne_of_take 13 (by rw [noTitleMsg_t13]; decide)
  have hnpT : ∀ L lab, watchNotProvidedMsg ≠ titleLenMsg L lab :=
    fun L lab => str_ne_of_take 13 (by rw [titleLenMsg_t13]; decide)
  have hnpG : watchNotProvidedMsg ≠ tagsNotDetectedMsg := by decide
  have hnpGL : ∀ n, watchNotProvidedMsg ≠ tagsLenMsg n :=
    fun n => str_ne_of_take 13 (by rw [tagsLenMsg_t13]; decide)
  have hnpO : watchNotProvidedMsg ≠ tsOrderMsg := by decide
  have hnpC : ∀ n, watchNotProvidedMsg ≠ tsCountMsg n :=
    fun n => str_ne_of_take 13 (by rw [tsCountMsg_t13]; decide)
  have hnvD : watchNoValidMsg ≠ dashMsg := by decide
  have hnvM : ∀ lab, watchNoValidMsg ≠ missingMsg lab :=
    fun lab => str_ne_of_take 13 (by rw [missingMsg_t13]; decide)
  have hnvN : ∀ lab, watchNoValidMsg ≠ noTitleMsg lab :=
    fun lab => str_ne_of_take 13 (by rw [noTitleMsg_t13]; decide)
  have hnvT : ∀ L lab, watchNoValidMsg ≠ titleLenMsg L lab :=
    fun L lab => str_ne_of_take 13 (by rw [titleLenMsg_t13]; decide)
  have hnvG : watchNoValidMsg ≠ tagsNotDetectedMsg := by decide
  have hnvGL : ∀ n, watchNoValidMsg ≠ tagsLenMsg n :=
    fun n => str_ne_of_take 13 (by rw [tagsLenMsg_t13]; decide)
  have hnvO : watchNoValidMsg ≠ tsOrderMsg := by decide
  have hnvC : ∀ n, watchNoValidMsg ≠ tsCountMsg n :=
    fun n => str_ne_of_take 13 (by rw [tsCountMsg_t13]; decide)
  have hnpnv : watchNotProvidedMsg ≠ watchNoValidMsg := by decide
  constructor
  · rw [qa_check_eq]
    simp only [List.mem_append,
      not_mem_dashIssues hnpD, not_mem_missingIssues hnpM,
      not_mem_titleIssues hnpN hnpT,
      not_mem_tagsIssues hnpG hnpGL, not_mem_tsIssues hnpO hnpC,
      false_or, or_false]
    rw [mem_watchIssues]
    simp [hnpnv]
    tauto
  · rw [qa_check_eq]
    simp only [List.mem_append,
      not_mem_dashIssues hnvD, not_mem_missingIssues hnvM,
      not_mem_titleIssues hnvN hnvT,
      not_mem_tagsIssues hnvG hnvGL, not_mem_tsIssues hnvO hnvC,
      false_or, or_false]
    rw [mem_watchIssues]
    simp [hnpnv.symm]
    tauto

/-- **C6.** For every QA input with at least one non-blank line, the
validator treats the last non-blank line as the tags line and emits a
violation if it contains no comma, otherwise a violation if and only if
its length exceeds 500 characters; a comma-containing last line of
exactly 500 characters produces no tags violation. -/
theorem c6_tags_line (txt mode : String) (links : List ValidatedLink) (last : String)
    (hlast : (qaNonEmpty txt).getLast? = some last) :
    (tagsNotDetectedMsg ∈ qa_check txt mode links ↔ containsSubstr "," last = false) ∧
    (tagsLenMsg last.length ∈ qa_check txt mode links ↔
      containsSubstr "," last = true ∧ 500 < last.length) := by
  have hndD : tagsNotDetectedMsg ≠ dashMsg := by decide
  have hndM : ∀ lab, tagsNotDetectedMsg ≠ missingMsg lab :=
    fun lab => str_ne_of_take 13 (by rw [missingMsg_t13]; decide)
  have hndN : ∀ lab, tagsNotDetectedMsg ≠ noTitleMsg lab :=
    fun lab => str_ne_of_take 13 (by rw [noTitleMsg_t13]; decide)
  have hndT : ∀ L lab, tagsNotDetectedMsg ≠ titleLenMsg L lab :=
    fun L lab => str_ne_of_take 13 (by rw [titleLenMsg_t13]; decide)
  have hndW1 : tagsNotDetectedMsg ≠ watchNotProvidedMsg := by decide
  have hndW2 : tagsNotDetectedMsg ≠ watchNoValidMsg := by decide
  have hndO : tagsNotDetectedMsg ≠ tsOrderMsg := by decide
  have hndC : ∀ n, tagsNotDetectedMsg ≠ tsCountMsg n :=
    fun n => str_ne_of_take 13 (by rw [tsCountMsg_t13]; decide)
  have hndGL : ∀ n, tagsNotDetectedMsg ≠ tagsLenMsg n :=
    fun n => str_ne_of_take 13 (by rw [tagsLenMsg_t13]; decide)
  have hglD : ∀ n, tagsLenMsg n ≠ dashMsg :=
    fun n => str_ne_of_take 13 (by rw [tagsLenMsg_t13]; decide)
  have hglM : ∀ n lab, tagsLenMsg n ≠ missingMsg lab :=
    fun n lab => str_ne_of_take 13 (by rw [tagsLenMsg_t13, missingMsg_t13]; decide)
  have hglN : ∀ n lab, tagsLenMsg n ≠ noTitleMsg lab :=
    fun n lab => str_ne_of_take 13 (by rw [tagsLenMsg_t13, noTitleMsg_t13]; decide)
  have hglT : ∀ n L lab, tagsLenMsg n ≠ titleLenMsg L lab :=
    fun n L lab => str_ne_of_take 13 (by rw [tagsLenMsg_t13, titleLenMsg_t13]; decide)
  have hglW1 : ∀ n, tagsLenMsg n ≠ watchNotProvidedMsg :=
    fun n => str_ne_of_take 13 (by rw [tagsLenMsg_t13]; decide)
  have hglW2 : ∀ n, tagsLenMsg n ≠ watchNoValidMsg :=
    fun n => str_ne_of_take 13 (by rw [tagsLenMsg_t13]; decide)
  have hglO : ∀ n, tagsLenMsg n ≠ tsOrderMsg :=
    fun n => str_ne_of_take 13 (by rw [tagsLenMsg_t13]; decide)
  have hglC : ∀ n k, tagsLenMsg n ≠ tsCountMsg k :=
    fun n k => str_ne_of_take 13 (by rw [tagsLenMsg_t13, tsCountMsg_t13]; decide)
  constructor
  · rw [qa_check_eq]
    simp only [List.mem_append,
      not_mem_dashIssues hndD, not_mem_missingIssues hndM,
      not_mem_titleIssues hndN hndT,
      not_mem_watchIssues hndW1 hndW2, not_mem_tsIssues hndO hndC,
      false_or, or_false]
    rw [mem_tagsIssues]
    simp [hlast, hndGL]
  · rw [qa_check_eq]
    simp only [List.mem_append,
      not_mem_dashIssues (hglD _), not_mem_missingIssues (hglM _),
      not_mem_titleIssues (hglN _) (hglT _),
      not_mem_watchIssues (hglW1 _) (hglW2 _), not_mem_tsIssues (hglO _) (hglC _),
      false_or, or_false]
    rw [mem_tagsIssues]
    simp [hlast, (hndGL _).symm]

/-- Witness for `c6_tags_line` at a concrete input with a comma-bearing
last line. -/
theorem c6_tags_line_witness :
    tagsNotDetectedMsg ∉ qa_check "x,y" "provided" [] := by
  have h := (c6_tags_line "x,y" "provided" [] "x,y" (by decide)).1
  rw [h]
  decide

/-- **C3.** For every QA input containing a first line beginning
(case-insensitively) with "Type", the QA validator collects all
subsequent lines matching a leading MM:SS timestamp followed by text,
converts each to integer seconds, and emits a violation if and only if
some adjacent pair is not strictly increasing (covering decreases and
duplicates); additionally it emits the count violation if and only if
more than 8 such timestamp lines are present. -/
theorem c3_timestamp_rule (txt mode : String) (links : List ValidatedLink)
    (after : List String) (hty : afterTypeLine (qaLines txt) = some after) :
    (tsOrderMsg ∈ qa_check txt mode links ↔
      hasNonIncreasing ((after.filterMap matchTimestamp).map mmss_to_sec) = true) ∧
    (tsCountMsg (after.filterMap matchTimestamp).length ∈ qa_check txt mode links ↔
      8 < (after.filterMap matchTimestamp).length) := by
  have hts : tsOf (qaLines txt) = after.filterMap matchTimestamp := by
    unfold tsOf
    rw [hty]
  have hoD : tsOrderMsg ≠ dashMsg := by decide
  have hoM : ∀ lab, tsOrderMsg ≠ missingMsg lab :=
    fun lab => str_ne_of_take 13 (by rw [missingMsg_t13]; decide)
  have hoN : ∀ lab, tsOrderMsg ≠ noTitleMsg lab :=
    fun lab => str_ne_of_take 13 (by rw [noTitleMsg_t13]; decide)
  have hoT : ∀ L lab, tsOrderMsg ≠ titleLenMsg L lab :=
    fun L lab => str_ne_of_take 13 (by rw [titleLenMsg_t13]; decide)
  have hoW1 : tsOrderMsg ≠ watchNotProvidedMsg := by decide
  have hoW2 : tsOrderMsg ≠ watchNoValidMsg := by decide
  have hoG : tsOrderMsg ≠ tagsNotDetectedMsg := by decide
  have hoGL : ∀ n, tsOrderMsg ≠ tagsLenMsg n :=
    fun n => str_ne_of_take 13 (by rw [tagsLenMsg_t13]; decide)
  have hoC : ∀ n, tsOrderMsg ≠ tsCountMsg n :=
    fun n => str_ne_of_take 23 (by rw [tsCountMsg_t23]; decide)
  have hcD : ∀ n, tsCountMsg n ≠ dashMsg :=
    fun n => str_ne_of_take 13 (by rw [tsCountMsg_t13]; decide)
  have hcM : ∀ n lab, tsCountMsg n ≠ missingMsg lab :=
    fun n lab => str_ne_of_take 13 (by rw [tsCountMsg_t13, missingMsg_t13]; decide)
  have hcN : ∀ n lab, tsCountMsg n ≠ noTitleMsg lab :=
    fun n lab => str_ne_of_take 13 (by rw [tsCountMsg_t13, noTitleMsg_t13]; decide)
  have hcT : ∀ n L lab, tsCountMsg n ≠ titleLenMsg L lab :=
    fun n L lab => str_ne_of_take 13 (by rw [tsCountMsg_t13, titleLenMsg_t13]; decide)
  have hcW1 : ∀ n, tsCountMsg n ≠ watchNotProvidedMsg :=
    fun n => str_ne_of_take 13 (by rw [tsCountMsg_t13]; decide)
  have hcW2 : ∀ n, tsCountMsg n ≠ watchNoValidMsg :=
    fun n => str_ne_of_take 13 (by rw [tsCountMsg_t13]; decide)
  have hcG : ∀ n, tsCountMsg n ≠ tagsNotDetectedMsg :=
    fun n => str_ne_of_take 13 (by rw [tsCountMsg_t13]; decide)
  have hcGL : ∀ n k, tsCountMsg n ≠ tagsLenMsg k :=
    fun n k => str_ne_of_take 13 (by rw [tsCountMsg_t13, tagsLenMsg_t13]; decide)
  constructor
  · rw [qa_check_eq]
    simp only [List.mem_append,
      not_mem_dashIssues hoD, not_mem_missingIssues hoM,
      not_mem_titleIssues hoN hoT,
      not_mem_watchIssues hoW1 hoW2, not_mem_tagsIssues hoG hoGL,
      false_or, or_false]
    rw [mem_tsIssues, hts]
    constructor
    · rintro ⟨_, h | h⟩
      · exact h.1
      · exact absurd h.2 (hoC _)
    · intro h
      refine ⟨?_, Or.inl ⟨h, rfl⟩⟩
      intro hnil
      rw [hnil] at h
      exact absurd h (by decide)
  · rw [qa_check_eq]
    simp only [List.mem_append,
      not_mem_dashIssues (hcD _), not_mem_missingIssues (hcM _),
      not_mem_titleIssues (hcN _) (hcT _),
      not_mem_watchIssues (hcW1 _) (hcW2 _), not_mem_tagsIssues (hcG _) (hcGL _),
      false_or, or_false]
    rw [mem_tsIssues, hts]
    constructor
    · rintro ⟨_, h | h⟩
      · exact absurd h.2 (Ne.symm (hoC _))
      · exact h.1
    · intro h
      refine ⟨?_, Or.inr ⟨h, rfl⟩⟩
      intro hnil
      rw [hnil] at h
      exact absurd h (by decide)

/-- Witness for `c3_timestamp_rule` at a concrete input with a
decreasing timestamp pair. -/
theorem c3_timestamp_rule_witness :
    tsOrderMsg ∈ qa_check "Type\n00:10 a\n00:09 b" "provided" [] := by
  have h :=
    (c3_timestamp_rule "Type\n00:10 a\n00:09 b" "provided" [] ["00:10 a", "00:09 b"]
      (by decide)).1
  rw [h]
  decide

/-- **C4, counterexample.** The claim states that each label must be
present verbatim as a standalone line and that a missing-label
violation is emitted for each label not present as such a line.  In the
input below the first label occurs only inside a longer line — it is
not a standalone line — yet `qa_check` (which tests bare substring
presence, `lab not in txt`) emits no missing-label violation for it. -/
theorem c4_standalone_counterexample :
    (¬ ∃ l ∈ qaLines "xOption 1 (Highest SEO Reach)",
        pyStrip l = "Option 1 (Highest SEO Reach)") ∧
    missingMsg "Option 1 (Highest SEO Reach)" ∉
      qa_check "xOption 1 (Highest SEO Reach)" "provided" [] := by
  constructor
  · decide
  · decide

/-- **C4, amended.** For every QA input text, the validator emits one
separate missing-label violation for each of the three exact
title-option labels that does not occur as a substring of the text
(standalone-line presence is required only by the title-length rule). -/
theorem c4_missing_label_amended (txt mode : String) (links : List ValidatedLink)
    (lab : String) (hlab : lab ∈ required_labels) :
    missingMsg lab ∈ qa_check txt mode links ↔ containsSubstr lab txt = false := by
  have hmD : ∀ l, missingMsg l ≠ dashMsg :=
    fun l => str_ne_of_take 13 (by rw [missingMsg_t13]; decide)
  have hmN : ∀ l l', missingMsg l ≠ noTitleMsg l' :=
    fun l l' => str_ne_of_take 13 (by rw [missingMsg_t13, noTitleMsg_t13]; decide)
  have hmT : ∀ l L l', missingMsg l ≠ titleLenMsg L l' :=
    fun l L l' => str_ne_of_take 13 (by rw [missingMsg_t13, titleLenMsg_t13]; decide)
  have hmW1 : ∀ l, missingMsg l ≠ watchNotProvidedMsg :=
    fun l => str_ne_of_take 13 (by rw [missingMsg_t13]; decide)
  have hmW2 : ∀ l, missingMsg l ≠ watchNoValidMsg :=
    fun l => str_ne_of_take 13 (by rw [missingMsg_t13]; decide)
  have hmG : ∀ l, missingMsg l ≠ tagsNotDetectedMsg :=
    fun l => str_ne_of_take 13 (by rw [missingMsg_t13]; decide)
  have hmGL : ∀ l n, missingMsg l ≠ tagsLenMsg n :=
    fun l n => str_ne_of_take 13 (by rw [missingMsg_t13, tagsLenMsg_t13]; decide)
  have hmO : ∀ l, missingMsg l ≠ tsOrderMsg :=
    fun l => str_ne_of_take 13 (by rw [missingMsg_t13]; decide)
  have hmC : ∀ l n, missingMsg l ≠ tsCountMsg n :=
    fun l n => str_ne_of_take 13 (by rw [missingMsg_t13, tsCountMsg_t13]; decide)
  rw [qa_check_eq]
  simp only [List.mem_append,
    not_mem_dashIssues (hmD _),
    not_mem_titleIssues (hmN _) (fun L l' => hmT _ L l'),
    not_mem_watchIssues (hmW1 _) (hmW2 _),
    not_mem_tagsIssues (hmG _) (hmGL _),
    not_mem_tsIssues (hmO _) (hmC _),
    false_or, or_false]
  rw [mem_missingIssues]
  constructor
  · rintro ⟨lab', _, hc, he⟩
    rw [missingMsg_inj he]
    exact hc
  · intro hc
    exact ⟨lab, hlab, hc, rfl⟩

/-- Witness for `c4_missing_label_amended`: in an input not containing
the first label, its missing-label violation is emitted. -/
theorem c4_missing_label_amended_witness :
    missingMsg "Option 1 (Highest SEO Reach)" ∈ qa_check "hello" "provided" [] := by
  have h :=
    c4_missing_label_amended "hello" "provided" [] "Option 1 (Highest SEO Reach)"
      (by decide)
  rw [h]
  decide

/-- **C5.** For each title label present as a standalone line in the QA
input, the validator takes the next non-blank line after it as the
title text and emits a length violation if and only if that title
text's character length is outside the inclusive range 60-75 —
independently per label. -/
theorem c5_title_length (txt mode : String) (links : List ValidatedLink)
    (lab : String) (hlab : lab ∈ required_labels)
    (rest : List String) (hrest : afterLabel lab (qaLines txt) = some rest)
    (l : String) (tl : List String)
    (hnb : rest.dropWhile (fun x => pyStrip x = "") = l :: tl) :
    titleLenMsg (pyStrip l).length lab ∈ qa_check txt mode links ↔
      ((pyStrip l).length < 60 ∨ 75 < (pyStrip l).length) := by
  have htD : ∀ L lb, titleLenMsg L lb ≠ dashMsg :=
    fun L lb => str_ne_of_take 13 (by rw [titleLenMsg_t13]; decide)
  have htM : ∀ L lb lb', titleLenMsg L lb ≠ missingMsg lb' :=
    fun L lb lb' => str_ne_of_take 13 (by rw [titleLenMsg_t13, missingMsg_t13]; decide)
  have htN : ∀ L lb lb', titleLenMsg L lb ≠ noTitleMsg lb' :=
    fun L lb lb' => str_ne_of_take 13 (by rw [titleLenMsg_t13, noTitleMsg_t13]; decide)
  have htW1 : ∀ L lb, titleLenMsg L lb ≠ watchNotProvidedMsg :=
    fun L lb => str_ne_of_take 13 (by rw [titleLenMsg_t13]; decide)
  have htW2 : ∀ L lb, titleLenMsg L lb ≠ watchNoValidMsg :=
    fun L lb => str_ne_of_take 13 (by rw [titleLenMsg_t13]; decide)
  have htG : ∀ L lb, titleLenMsg L lb ≠ tagsNotDetectedMsg :=
    fun L lb => str_ne_of_take 13 (by rw [titleLenMsg_t13]; decide)
  have htGL : ∀ L lb n, titleLenMsg L lb ≠ tagsLenMsg n :=
    fun L lb n => str_ne_of_take 13 (by rw [titleLenMsg_t13, tagsLenMsg_t13]; decide)
  have htO : ∀ L lb, titleLenMsg L lb ≠ tsOrderMsg :=
    fun L lb => str_ne_of_take 13 (by rw [titleLenMsg_t13]; decide)
  have htC : ∀ L lb n, titleLenMsg L lb ≠ tsCountMsg n :=
    fun L lb n => str_ne_of_take 13 (by rw [titleLenMsg_t13, tsCountMsg_t13]; decide)
  have hfor : titleIssueFor (qaLines txt) lab =
      (if (pyStrip l).length < 60 || (pyStrip l).length > 75 then
        [titleLenMsg (pyStrip l).length lab] else []) := by
    unfold titleIssueFor
    rw [hrest]
    dsimp only
    rw [hnb]
  rw [qa_check_eq]
  simp only [List.mem_append,
    not_mem_dashIssues (htD _ _), not_mem_missingIssues (htM _ _),
    not_mem_watchIssues (htW1 _ _) (htW2 _ _),
    not_mem_tagsIssues (htG _ _) (htGL _ _),
    not_mem_tsIssues (htO _ _) (htC _ _),
    false_or, or_false]
  rw [mem_titleIssues]
  constructor
  · rintro ⟨lab', hlab', hmem⟩
    have hlabeq : lab' = lab := by
      rcases titleIssueFor_shape hmem with he | ⟨L', he⟩
      · exact absurd he (htN _ _ _)
      · exact (titleLenMsg_lab_eq hlab hlab' he).symm
    subst hlabeq
    rw [hfor] at hmem
    by_cases h60 : (pyStrip l).length < 60
    · exact Or.inl h60
    · by_cases h75 : (pyStrip l).length > 75
      · exact Or.inr h75
      · rw [if_neg (by simp [h60, h75])] at hmem
        cases hmem
  · intro hcond
    refine ⟨lab, hlab, ?_⟩
    rw [hfor, if_pos ?_]
    · exact List.mem_singleton.mpr rfl
    · rcases hcond with h | h <;> simp [h]

/-! Auxiliary facts for the blank-input claim: every character of every
split line comes from the input, and a substring hit implies character
membership. -/

theorem strInfixAux_subset :
    ∀ {n hay : List Char}, strInfixAux n hay = true → ∀ c ∈ n, c ∈ hay := by
  intro n hay
  induction hay with
  | nil =>
      intro h c hc
      have : n = [] := List.prefix_nil.mp (List.isPrefixOf_iff_prefix.mp (by simpa [strInfixAux] using h))
      subst this
      cases hc
  | cons a rest ih =>
      intro h c hc
      rcases (by simpa [strInfixAux] using h :
          n <+: a :: rest ∨ strInfixAux n rest = true) with hp | hi
      · exact hp.sublist.subset hc
      · exact List.mem_cons_of_mem a (ih hi c hc)

theorem containsSubstr_subset {needle hay : String}
    (h : containsSubstr needle hay = true) : ∀ c ∈ needle.data, c ∈ hay.data :=
  strInfixAux_subset h

theorem pySplitlinesAux_chars (P : Char → Prop) :
    ∀ (cs acc : List Char), (∀ c ∈ cs, P c) → (∀ c ∈ acc, P c) →
      ∀ l ∈ pySplitlinesAux cs acc, ∀ c ∈ l.data, P c
  | [], acc, _, hacc => by
      rw [pySplitlinesAux]
      split
      · intro l hl; cases hl
      · intro l hl c hc
        rw [List.mem_singleton] at hl
        subst hl
        exact hacc c (List.mem_reverse.mp hc)
  | [a], acc, hcs, hacc => by
      rw [pySplitlinesAux]
      split <;> intro l hl c hc <;> rw [List.mem_singleton] at hl <;> subst hl
      · exact hacc c (List.mem_reverse.mp hc)
      · rcases List.mem_cons.mp (List.mem_reverse.mp hc) with rfl | hm
        · exact hcs c (by simp)
        · exact hacc c hm
  | c1 :: c2 :: rest, acc, hcs, hacc => by
      have hcs2 : ∀ c ∈ c2 :: rest, P c := fun c hc => hcs c (List.mem_cons_of_mem _ hc)
      have hrest : ∀ c ∈ rest, P c := fun c hc => hcs2 c (List.mem_cons_of_mem _ hc)
      rw [pySplitlinesAux]
      split
      · intro l hl c hc
        rcases List.mem_cons.mp hl with rfl | hm
        · exact hacc c (List.mem_reverse.mp hc)
        · split at hm
          · exact pySplitlinesAux_chars P rest [] hrest (by intro c hc; cases hc) l hm c hc
          · exact pySplitlinesAux_chars P (c2 :: rest) [] hcs2 (by intro c hc; cases hc) l hm c hc
      · split
        · intro l hl c hc
          rcases List.mem_cons.mp hl with rfl | hm
          · exact hacc c (List.mem_reverse.mp hc)
          · exact pySplitlinesAux_chars P (c2 :: rest) [] hcs2 (by intro c hc; cases hc) l hm c hc
        · intro l hl c hc
          refine pySplitlinesAux_chars P (c2 :: rest) (c1 :: acc) hcs2 ?_ l hl c hc
          intro c hc
          rcases List.mem_cons.mp hc with rfl | hm
          · exact hcs c (by simp)
          · exact hacc c hm

theorem pyRstripNl_chars {l : String} {c : Char} (hc : c ∈ (pyRstripNl l).data) :
    c ∈ l.data := by
  unfold pyRstripNl at hc
  have := List.mem_reverse.mp hc
  have := (List.dropWhile_sublist (fun c => c == '\n')).subset this
  exact List.mem_reverse.mp this

/-- On input whose characters are all whitespace, every `qa_check` line
is made of whitespace characters only. -/
theorem qaLines_blank {txt : String} (hblank : ∀ c ∈ txt.data, isPySpace c = true) :
    ∀ l ∈ qaLines txt, pyStrip l = "" := by
  intro l hl
  obtain ⟨l₀, hl₀, rfl⟩ := List.mem_map.mp hl
  have hchars : ∀ c ∈ (pyRstripNl l₀).data, isPySpace c = true := fun c hc =>
    pySplitlinesAux_chars (fun c => isPySpace c = true) txt.data [] hblank
      (by intro c hc; cases hc) l₀ hl₀ c (pyRstripNl_chars hc)
  unfold pyStrip
  rw [List.dropWhile_eq_nil_iff.mpr hchars]
  rfl

/-- On all-blank lines no label line is ever found. -/
theorem afterLabel_none {lab : String} {lines : List String} (hlab : lab ≠ "")
    (h : ∀ l ∈ lines, pyStrip l = "") : afterLabel lab lines = none := by
  induction lines with
  | nil => rfl
  | cons l rest ih =>
      rw [afterLabel, if_neg]
      · exact ih fun l' hl' => h l' (List.mem_cons_of_mem _ hl')
      · rw [h l (by simp)]
        exact fun he => hlab he.symm

/-- On all-blank lines no `Type` line is ever found. -/
theorem afterTypeLine_none {lines : List String}
    (h : ∀ l ∈ lines, pyStrip l = "") : afterTypeLine lines = none := by
  induction lines with
  | nil => rfl
  | cons l rest ih =>
      rw [afterTypeLine, if_neg]
      · exact ih fun l' hl' => h l' (List.mem_cons_of_mem _ hl')
      · rw [h l (by simp)]
        decide

/-- On all-blank lines there is no Watch-Next heading. -/
theorem hasWatchNext_false {lines : List String}
    (h : ∀ l ∈ lines, pyStrip l = "") : hasWatchNext lines = false := by
  rw [hasWatchNext, List.any_eq_false]
  intro l hl
  rw [h l hl]
  decide

/-- **C10.** For every output text consisting only of blank lines
(equivalently, of whitespace characters — the empty string included),
the QA validator returns exactly the three missing-title-label
violations: with no non-blank line present, the tags-line, title-length,
Watch-Next, dash and timestamp rules all produce no violation. -/
theorem c10_blank_input (txt mode : String) (links : List ValidatedLink)
    (hblank : ∀ c ∈ txt.data, isPySpace c = true) :
    qa_check txt mode links =
      [missingMsg "Option 1 (Highest SEO Reach)",
       missingMsg "Option 2 (Parent High-Intent)",
       missingMsg "Option 3 (Authority Explainer)"] := by
  have hstrip := qaLines_blank hblank
  have hnoc : ∀ needle : String, (∃ c ∈ needle.data, isPySpace c = false) →
      containsSubstr needle txt = false := by
    intro needle ⟨c, hc, hcs⟩
    cases h : containsSubstr needle txt
    · rfl
    · exact absurd (hblank c (containsSubstr_subset h c hc)) (by rw [hcs]; decide)
  have hdash : dashIssues txt = [] := by
    unfold dashIssues
    rw [hnoc "—" ⟨'—', by decide, by decide⟩, hnoc "–" ⟨'–', by decide, by decide⟩]
    rfl
  have hm1 : containsSubstr "Option 1 (Highest SEO Reach)" txt = false :=
    hnoc _ ⟨'O', by decide, by decide⟩
  have hm2 : containsSubstr "Option 2 (Parent High-Intent)" txt = false :=
    hnoc _ ⟨'O', by decide, by decide⟩
  have hm3 : containsSubstr "Option 3 (Authority Explainer)" txt = false :=
    hnoc _ ⟨'O', by decide, by decide⟩
  have hmiss : missingIssues txt =
      [missingMsg "Option 1 (Highest SEO Reach)",
       missingMsg "Option 2 (Parent High-Intent)",
       missingMsg "Option 3 (Authority Explainer)"] := by
    simp [missingIssues, required_labels, hm1, hm2, hm3]
  have htitle : titleIssues (qaLines txt) = [] := by
    have hfor : ∀ lab : String, lab ≠ "" → titleIssueFor (qaLines txt) lab = [] := by
      intro lab hlab
      unfold titleIssueFor
      rw [afterLabel_none hlab hstrip]
    simp [titleIssues, required_labels]
    refine ⟨?_, ?_, ?_⟩ <;> exact hfor _ (by decide)
  have hwatch : watchIssues (qaLines txt) mode links = [] := by
    simp [watchIssues, hasWatchNext_false hstrip]
  have hne : qaNonEmpty txt = [] := by
    rw [qaNonEmpty, List.filter_eq_nil_iff]
    intro l hl
    obtain ⟨l₀, hl₀, rfl⟩ := List.mem_map.mp hl
    simp [hstrip l₀ hl₀]
  have htags : tagsIssues (qaNonEmpty txt) = [] := by
    rw [hne]
    rfl
  have hts : tsIssues (qaLines txt) = [] := by
    have : tsOf (qaLines txt) = [] := by
      unfold tsOf
      rw [afterTypeLine_none hstrip]
    simp [tsIssues, this]
  rw [qa_check_eq, hdash, hmiss, htitle, hwatch, htags, hts]
  rfl

/-- Witness for `c10_blank_input` on a two-blank-line input. -/
theorem c10_blank_input_witness :
    qa_check " \n " "provided" [] =
      [missingMsg "Option 1 (Highest SEO Reach)",
       missingMsg "Option 2 (Parent High-Intent)",
       missingMsg "Option 3 (Authority Explainer)"] :=
  c10_blank_input " \n " "provided" [] (by decide)

/-- Witness for `c5_title_length`: a 5-character title after a
standalone label line is flagged. -/
theorem c5_title_length_witness :
    titleLenMsg 5 "Option 1 (Highest SEO Reach)" ∈
      qa_check "Option 1 (Highest SEO Reach)\nshort" "provided" [] := by
  have h :=
    c5_title_length "Option 1 (Highest SEO Reach)\nshort" "provided" []
      "Option 1 (Highest SEO Reach)" (by decide) ["short"] (by decide)
      "short" [] (by decide)
  have h5 : (pyStrip "short").length = 5 := by decide
  rw [h5] at h
  rw [h]
  decide

/-- **C2.** For every job submitted with `linkMode = "not_provided"`,
the worker terminates immediately in the hard-stop state: its whole
trace is the single hard-stop update plus the upload deletion; the
resulting job record has the fixed three-line canned message as
`metadata`, `qa_pass = some true`, `progress = 100`, `done = true` and
an empty transcript; and no external stage (audio extraction, engine
load, transcription, link validation, generation, QA check) is
invoked. -/
theorem c2_hard_stop (env : WorkerEnv) (links_text : String) :
    worker env "not_provided" links_text =
      [Event.update hardStopUpdate, Event.deleteUpload] ∧
    (runJob initJob (worker env "not_provided" links_text)).metadata = hardStopMessage ∧
    (runJob initJob (worker env "not_provided" links_text)).qa_pass = some true ∧
    (runJob initJob (worker env "not_provided" links_text)).progress = 100 ∧
    (runJob initJob (worker env "not_provided" links_text)).done = true ∧
    (runJob initJob (worker env "not_provided" links_text)).transcript = "" ∧
    ∀ ev ∈ worker env "not_provided" links_text, isExternalCall ev = false := by
  have htr : worker env "not_provided" links_text =
      [Event.update hardStopUpdate, Event.deleteUpload] := by
    unfold worker workerBody
    rw [if_pos rfl]
    rfl
  rw [htr]
  refine ⟨rfl, rfl, rfl, rfl, rfl, rfl, ?_⟩
  intro ev hev
  rcases List.mem_cons.mp hev with rfl | hev
  · rfl
  · rcases List.mem_singleton.mp hev with rfl
    rfl

/-! Worker-trace helper lemmas. -/

theorem runJob_append (j : Job) (a b : List Event) :
    runJob j (a ++ b) = runJob (runJob j a) b := by
  induction a generalizing j with
  | nil => rfl
  | cons e rest ih =>
      cases e <;> simp only [List.cons_append, runJob] <;> exact ih _

/-- Every event emitted by the transcription loop is a progress/stage
update. -/
theorem transcribeLoop_events (dur : ℚ) :
    ∀ (segs : List Seg) (lastPct : Int), ∀ ev ∈ (transcribeLoop dur segs lastPct).2,
      ∃ p, ev = Event.update (progUpd p "Transcribing audio…")
  | [], _ => by intro ev hev; cases hev
  | s :: rest, lastPct => by
      intro ev hev
      rw [transcribeLoop] at hev
      cases h : transcribeStep dur lastPct s with
      | some p =>
          rw [h] at hev
          dsimp only at hev
          rcases List.mem_cons.mp hev with rfl | hm
          · exact ⟨p, rfl⟩
          · exact transcribeLoop_events dur rest p ev hm
      | none =>
          rw [h] at hev
          dsimp only at hev
          exact transcribeLoop_events dur rest lastPct ev hev

/-- Progress/stage-only updates leave the other job fields unchanged. -/
theorem runJob_progress_only (evs : List Event) :
    ∀ (j : Job), (∀ ev ∈ evs, ∃ p st, ev = Event.update (progUpd p st)) →
      (runJob j evs).done = j.done ∧ (runJob j evs).error = j.error ∧
      (runJob j evs).metadata = j.metadata := by
  induction evs with
  | nil => exact fun j _ => ⟨rfl, rfl, rfl⟩
  | cons e rest ih =>
      intro j h
      obtain ⟨p, st, rfl⟩ := h e (by simp)
      exact ih (applyUpdate j (progUpd p st))
        (fun ev hev => h ev (List.mem_cons_of_mem _ hev))

/-- **C8.** Every non-hard-stop job whose transcription yields segments
assembling to an empty transcript (in particular zero segments)
terminates as `Failed`: `done = true`, `progress = 100`, the
EmptyTranscript error recorded in the `error` field, and `metadata`
still empty — never a successful empty-metadata completion. -/
theorem c8_empty_transcript (env : WorkerEnv) (lm lt : String)
    (hmode : lm ≠ "not_provided")
    (hex : env.extract = .ok ()) (hload : env.load = .ok ())
    (segs : List Seg) (hseg : env.transcribe = .ok segs)
    (hemp : pyStrip (String.intercalate "\n" (transcribeLoop env.duration segs 20).1) = "") :
    (runJob initJob (worker env lm lt)).done = true ∧
    (runJob initJob (worker env lm lt)).progress = 100 ∧
    (runJob initJob (worker env lm lt)).error = some emptyTranscriptMsg ∧
    (runJob initJob (worker env lm lt)).metadata = "" := by
  have htr : worker env lm lt =
      (Event.update (progUpd 5 "Extracting audio…") :: Event.callExtract ::
        Event.callFfprobe ::
        Event.update (progUpd 15 "Loading speech model… (first run may take time)") ::
        Event.callWhisperLoad ::
        Event.update (progUpd 20 "Transcribing audio…") ::
        Event.callTranscribe ::
        ((transcribeLoop env.duration segs 20).2 ++
          [Event.update (failUpd emptyTranscriptMsg)])) ++ [Event.deleteUpload] := by
    unfold worker workerBody
    rw [if_neg hmode, hex, hload, hseg]
    dsimp only
    rw [if_pos hemp]
  rw [htr, runJob_append]
  have hpre : runJob initJob
      (Event.update (progUpd 5 "Extracting audio…") :: Event.callExtract ::
        Event.callFfprobe ::
        Event.update (progUpd 15 "Loading speech model… (first run may take time)") ::
        Event.callWhisperLoad ::
        Event.update (progUpd 20 "Transcribing audio…") ::
        Event.callTranscribe ::
        ((transcribeLoop env.duration segs 20).2 ++
          [Event.update (failUpd emptyTranscriptMsg)])) =
      runJob
        (applyUpdate (applyUpdate (applyUpdate initJob (progUpd 5 "Extracting audio…"))
          (progUpd 15 "Loading speech model… (first run may take time)"))
          (progUpd 20 "Transcribing audio…"))
        ((transcribeLoop env.duration segs 20).2 ++
          [Event.update (failUpd emptyTranscriptMsg)]) := rfl
  rw [hpre, runJob_append]
  set j7 := applyUpdate (applyUpdate (applyUpdate initJob (progUpd 5 "Extracting audio…"))
    (progUpd 15 "Loading speech model… (first run may take time)"))
    (progUpd 20 "Transcribing audio…") with hj7
  have hmid := runJob_progress_only ((transcribeLoop env.duration segs 20).2) j7
    (fun ev hev => by
      obtain ⟨p, he⟩ := transcribeLoop_events env.duration segs 20 ev hev
      exact ⟨p, _, he⟩)
  set jm := runJob j7 (transcribeLoop env.duration segs 20).2 with hjm
  have hfin : runJob jm [Event.update (failUpd emptyTranscriptMsg), Event.deleteUpload] =
      applyUpdate jm (failUpd emptyTranscriptMsg) := rfl
  rw [show runJob jm [Event.update (failUpd emptyTranscriptMsg)] =
      applyUpdate jm (failUpd emptyTranscriptMsg) from rfl]
  refine ⟨rfl, rfl, rfl, ?_⟩
  show jm.metadata = ""
  rw [hmid.2.2]
  rfl

/-- Witness for `c8_empty_transcript`: a zero-segment transcription. -/
theorem c8_empty_transcript_witness :
    (runJob initJob
      (worker ⟨.ok (), 0, .ok (), .ok [], fun _ => [], .ok "meta"⟩ "provided" "")).error =
      some emptyTranscriptMsg := by
  have h := c8_empty_transcript ⟨.ok (), 0, .ok (), .ok [], fun _ => [], .ok "meta"⟩
    "provided" "" (by decide) rfl rfl [] rfl (by decide)
  exact h.2.2.1

/-! Progress-bound helper lemmas for the monotonicity claim. -/

theorem pyInt_le_55 {q : ℚ} (h : q ≤ 55) : pyInt q ≤ 55 := by
  unfold pyInt
  split
  · have h1 := Int.floor_le_floor h
    have h2 : ⌊(55 : ℚ)⌋ = 55 := by norm_num
    omega
  · rename_i hq
    have h1 : (0 : ℚ) ≤ -q := by linarith [not_le.mp hq]
    have h2 : 0 ≤ ⌊-q⌋ := Int.floor_nonneg.mpr h1
    omega

theorem transcribeStep_bounds {dur : ℚ} {lastPct : Int} {s : Seg} {p : Int}
    (h : transcribeStep dur lastPct s = some p) : lastPct < p ∧ p ≤ 75 := by
  unfold transcribeStep at h
  split at h
  · dsimp only at h
    split at h
    · rename_i hlt
      cases h
      refine ⟨hlt, ?_⟩
      have hmin : min (1 : ℚ) (s.stop / dur) ≤ 1 := min_le_left _ _
      have hq : 55 * min (1 : ℚ) (s.stop / dur) ≤ 55 := by linarith
      have := pyInt_le_55 hq
      omega
    · cases h
  · cases h

/-- The progress values emitted by the transcription loop form a
strictly increasing chain above `lastPct`, bounded by 75. -/
theorem transcribeLoop_chain (dur : ℚ) :
    ∀ (segs : List Seg) (lastPct : Int),
      List.Chain' (fun a b => a < b)
        (lastPct :: (transcribeLoop dur segs lastPct).2.filterMap eventProgress) ∧
      ∀ p ∈ (transcribeLoop dur segs lastPct).2.filterMap eventProgress, p ≤ 75
  | [], lastPct => by
      constructor
      · simp [transcribeLoop]
      · intro p hp
        simp [transcribeLoop] at hp
  | s :: rest, lastPct => by
      rw [transcribeLoop]
      cases h : transcribeStep dur lastPct s with
      | some p =>
          dsimp only
          obtain ⟨hlt, hle⟩ := transcribeStep_bounds h
          obtain ⟨ihc, ihb⟩ := transcribeLoop_chain dur rest p
          constructor
          · simp only [List.filterMap_cons, eventProgress, progUpd]
            exact List.chain'_cons.mpr ⟨hlt, ihc⟩
          · intro q hq
            simp only [List.filterMap_cons, eventProgress, progUpd] at hq
            rcases List.mem_cons.mp hq with rfl | hq
            · exact hle
            · exact ihb q hq
      | none =>
          dsimp only
          exact transcribeLoop_chain dur rest lastPct

/-- Assemble the full progress chain `1, 5, 15, 20, loop…, tail`. -/
theorem chain_assemble (L tail : List Int)
    (hL : List.Chain' (fun a b => a < b) (20 :: L)) (hLe : ∀ p ∈ L, p ≤ 75)
    (htail : List.Chain' (fun a b => a ≤ b) tail)
    (hhead : ∀ y ∈ tail.head?, 76 ≤ y)
    (hbound : ∀ p ∈ tail, 0 ≤ p ∧ p ≤ 100) :
    List.Chain' (fun a b => a ≤ b) ((1 : Int) :: 5 :: 15 :: 20 :: (L ++ tail)) ∧
    ∀ p ∈ (1 : Int) :: 5 :: 15 :: 20 :: (L ++ tail), 0 ≤ p ∧ p ≤ 100 := by
  have hLmem : ∀ p ∈ L, 20 < p := by
    intro p hp
    have := (List.chain'_iff_pairwise.mp hL)
    exact (List.pairwise_cons.mp this).1 p hp
  constructor
  · refine List.chain'_cons.mpr ⟨by norm_num, ?_⟩
    refine List.chain'_cons.mpr ⟨by norm_num, ?_⟩
    refine List.chain'_cons.mpr ⟨by norm_num, ?_⟩
    have happ : List.Chain' (fun a b : Int => a ≤ b) ((20 :: L) ++ tail) := by
      refine List.Chain'.append (hL.imp fun a b => le_of_lt) htail ?_
      intro x hx y hy
      have hx75 : x ≤ 75 := by
        obtain ⟨ys, hys⟩ := List.getLast?_eq_some_iff.mp hx
        cases ys with
        | nil =>
            simp only [List.nil_append, List.cons.injEq] at hys
            omega
        | cons a ys' =>
            simp only [List.cons_append, List.cons.injEq] at hys
            exact hLe x (hys.2 ▸ List.mem_append.mpr (Or.inr (by simp)))
      have hy76 : 76 ≤ y := hhead y hy
      omega
    simpa only [List.cons_append] using happ
  · intro p hp
    rcases List.mem_cons.mp hp with rfl | hp
    · norm_num
    rcases List.mem_cons.mp hp with rfl | hp
    · norm_num
    rcases List.mem_cons.mp hp with rfl | hp
    · norm_num
    rcases List.mem_cons.mp hp with rfl | hp
    · norm_num
    rcases List.mem_append.mp hp with hp | hp
    · have h1 := hLmem p hp
      have h2 := hLe p hp
      omega
    · exact hbound p hp

/-- The sequence of progress values a worker run writes, by branch. -/
theorem worker_progress_list (env : WorkerEnv) (lm lt : String) :
    ((worker env lm lt).filterMap eventProgress = [100]) ∨
    ((worker env lm lt).filterMap eventProgress = [5, 100]) ∨
    ((worker env lm lt).filterMap eventProgress = [5, 15, 100]) ∨
    ((worker env lm lt).filterMap eventProgress = [5, 15, 20, 100]) ∨
    (∃ segs : List Seg, env.transcribe = .ok segs ∧ ∃ tail : List Int,
      (worker env lm lt).filterMap eventProgress =
        5 :: 15 :: 20 ::
          (((transcribeLoop env.duration segs 20).2.filterMap eventProgress) ++ tail) ∧
      (tail = [100] ∨ tail = [80, 88, 100] ∨ tail = [80, 88, 96, 100])) := by
  unfold worker workerBody
  by_cases hm : lm = "not_provided"
  · rw [if_pos hm]
    left
    rfl
  · rw [if_neg hm]
    cases hex : env.extract with
    | error e =>
        right; left
        rfl
    | ok u =>
        cases hload : env.load with
        | error e =>
            right; right; left
            rfl
        | ok u2 =>
            cases hseg : env.transcribe with
            | error e =>
                right; right; right; left
                rfl
            | ok segs =>
                right; right; right; right
                refine ⟨segs, rfl, ?_⟩
                dsimp only
                by_cases hemp : pyStrip
                    (String.intercalate "\n" (transcribeLoop env.duration segs 20).1) = ""
                · refine ⟨[100], ?_, Or.inl rfl⟩
                  rw [if_pos hemp]
                  simp [eventProgress, progUpd, failUpd, List.filterMap_append]
                · rw [if_neg hemp]
                  by_cases hv : lm = "provided" ∧ parse_links lt ≠ []
                  · rw [if_pos hv]
                    cases hgen : env.generate with
                    | error e =>
                        refine ⟨[80, 88, 100], ?_, Or.inr (Or.inl rfl)⟩
                        simp [eventProgress, progUpd, failUpd, List.filterMap_append]
                    | ok md =>
                        refine ⟨[80, 88, 96, 100], ?_, Or.inr (Or.inr rfl)⟩
                        simp [eventProgress, progUpd, failUpd, List.filterMap_append]
                  · rw [if_neg hv]
                    cases hgen : env.generate with
                    | error e =>
                        refine ⟨[80, 88, 100], ?_, Or.inr (Or.inl rfl)⟩
                        simp [eventProgress, progUpd, failUpd, List.filterMap_append]
                    | ok md =>
                        refine ⟨[80, 88, 96, 100], ?_, Or.inr (Or.inr rfl)⟩
                        simp [eventProgress, progUpd, failUpd, List.filterMap_append]

/-- **C9.** For every job, prefixing the creation value `progress = 1`,
the sequence of progress values written over the job's lifetime is
monotonically non-decreasing, and every value is an integer between 0
and 100 — including the per-segment transcription updates (which only
advance) and the terminal success and failure writes of 100. -/
theorem c9_progress_monotone (env : WorkerEnv) (lm lt : String) :
    List.Chain' (fun a b => a ≤ b)
      ((1 : Int) :: (worker env lm lt).filterMap eventProgress) ∧
    ∀ p ∈ (1 : Int) :: (worker env lm lt).filterMap eventProgress,
      0 ≤ p ∧ p ≤ 100 := by
  rcases worker_progress_list env lm lt with h | h | h | h |
    ⟨segs, _, tail, h, htail⟩
  · rw [h]
    exact ⟨by norm_num [List.chain'_cons, List.chain'_singleton], by decide⟩
  · rw [h]
    exact ⟨by norm_num [List.chain'_cons, List.chain'_singleton], by decide⟩
  · rw [h]
    exact ⟨by norm_num [List.chain'_cons, List.chain'_singleton], by decide⟩
  · rw [h]
    exact ⟨by norm_num [List.chain'_cons, List.chain'_singleton], by decide⟩
  · rw [h]
    obtain ⟨hc, hb⟩ := transcribeLoop_chain env.duration segs 20
    rcases htail with rfl | rfl | rfl <;>
      exact chain_assemble _ _ hc hb
        (by norm_num [List.chain'_cons, List.chain'_singleton])
        (by intro y hy; simp [List.head?] at hy; omega)
        (by decide)

/-! ### Generation-client lemmas -/

theorem tryResponsesPass_ok_iff (respond : String → ApiResult) :
    ∀ (models : List String) (e0 t : String),
      tryResponsesPass respond models e0 = .ok t ↔
        ∃ pre m post t', models = pre ++ m :: post ∧ nonScopeFailures respond pre ∧
          respond m = .success t' ∧ t = pyStrip t' := by
  intro models
  induction models with
  | nil =>
      intro e0 t
      constructor
      · intro h; cases h
      · rintro ⟨pre, m, post, t', heq, -, -, -⟩
        cases pre <;> cases heq
  | cons a rest ih =>
      intro e0 t
      rw [tryResponsesPass]
      cases ha : respond a with
      | success u =>
          dsimp only
          constructor
          · intro h
            cases h
            exact ⟨[], a, rest, u, rfl, fun m hm => absurd hm (List.not_mem_nil m), ha, rfl⟩
          · rintro ⟨pre, m, post, t', heq, hpre, hm, rfl⟩
            cases pre with
            | nil =>
                simp only [List.nil_append, List.cons.injEq] at heq
                rw [← heq.1] at hm
                rw [hm] at ha
                cases ha
                rfl
            | cons b pre' =>
                simp only [List.cons_append, List.cons.injEq] at heq
                obtain ⟨e, hfb, -⟩ := hpre b (by simp)
                rw [← heq.1, ha] at hfb
                cases hfb
      | failure e =>
          dsimp only
          by_cases hs : scopeBreak e = true
          · rw [if_pos hs]
            constructor
            · intro h; cases h
            · rintro ⟨pre, m, post, t', heq, hpre, hm, rfl⟩
              cases pre with
              | nil =>
                  simp only [List.nil_append, List.cons.injEq] at heq
                  rw [← heq.1] at hm
                  rw [hm] at ha
                  cases ha
              | cons b pre' =>
                  simp only [List.cons_append, List.cons.injEq] at heq
                  obtain ⟨e', hfb, hsb⟩ := hpre b (by simp)
                  rw [← heq.1, ha] at hfb
                  cases hfb
                  rw [hs] at hsb
                  cases hsb
          · rw [if_neg hs]
            rw [ih e]
            constructor
            · rintro ⟨pre, m, post, t', heq, hpre, hm, rfl⟩
              refine ⟨a :: pre, m, post, t', by rw [heq, List.cons_append], ?_, hm, rfl⟩
              intro m' hm'
              rcases List.mem_cons.mp hm' with rfl | hm'
              · exact ⟨e, ha, by simpa using hs⟩
              · exact hpre m' hm'
            · rintro ⟨pre, m, post, t', heq, hpre, hm, rfl⟩
              cases pre with
              | nil =>
                  simp only [List.nil_append, List.cons.injEq] at heq
                  rw [← heq.1] at hm
                  rw [hm] at ha
                  cases ha
              | cons b pre' =>
                  simp only [List.cons_append, List.cons.injEq] at heq
                  exact ⟨pre', m, post, t', heq.2, fun m' hm' =>
                    hpre m' (List.mem_cons_of_mem _ hm'), hm, rfl⟩

theorem tryResponsesPass_scope_break (respond : String → ApiResult) :
    ∀ (pre : List String) (m : String) (post : List String) (e e0 : String),
      nonScopeFailures respond pre → respond m = .failure e → scopeBreak e = true →
      tryResponsesPass respond (pre ++ m :: post) e0 = .error e := by
  intro pre
  induction pre with
  | nil =>
      intro m post e e0 _ hm hs
      rw [List.nil_append, tryResponsesPass, hm]
      dsimp only
      rw [if_pos hs]
  | cons b pre' ih =>
      intro m post e e0 hpre hm hs
      obtain ⟨eb, hfb, hsb⟩ := hpre b (by simp)
      rw [List.cons_append, tryResponsesPass, hfb]
      dsimp only
      rw [if_neg (by simp [hsb])]
      exact ih m post e eb (fun m' hm' => hpre m' (List.mem_cons_of_mem _ hm')) hm hs

theorem tryChatPass_ok_iff (chat : String → ApiResult) :
    ∀ (models : List String) (e0 t : String),
      tryChatPass chat models e0 = .ok t ↔
        ∃ pre m post t', models = pre ++ m :: post ∧
          (∀ m' ∈ pre, (∃ e, chat m' = .failure e) ∨
            ∃ u, chat m' = .success u ∧ pyStrip u = "") ∧
          chat m = .success t' ∧ pyStrip t' ≠ "" ∧ t = pyStrip t' := by
  intro models
  induction models with
  | nil =>
      intro e0 t
      constructor
      · intro h; cases h
      · rintro ⟨pre, m, post, t', heq, -, -, -, -⟩
        cases pre <;> cases heq
  | cons a rest ih =>
      intro e0 t
      rw [tryChatPass]
      cases ha : chat a with
      | success u =>
          dsimp only
          by_cases hu : pyStrip u ≠ ""
          · rw [if_pos hu]
            constructor
            · intro h
              cases h
              exact ⟨[], a, rest, u, rfl, fun m hm => absurd hm (List.not_mem_nil m),
                ha, hu, rfl⟩
            · rintro ⟨pre, m, post, t', heq, hpre, hm, ht', rfl⟩
              cases pre with
              | nil =>
                  simp only [List.nil_append, List.cons.injEq] at heq
                  rw [← heq.1] at hm
                  rw [hm] at ha
                  cases ha
                  rfl
              | cons b pre' =>
                  simp only [List.cons_append, List.cons.injEq] at heq
                  rcases hpre b (by simp) with ⟨e, hfb⟩ | ⟨v, hsv, hemp⟩
                  · rw [← heq.1, ha] at hfb
                    cases hfb
                  · rw [← heq.1, ha] at hsv
                    cases hsv
                    exact absurd hemp hu
          · rw [if_neg hu]
            rw [ih "Empty response from chat.completions."]
            have hue : pyStrip u = "" := by
              by_contra hne
              exact hu hne
            constructor
            · rintro ⟨pre, m, post, t', heq, hpre, hm, ht', rfl⟩
              refine ⟨a :: pre, m, post, t', by rw [heq, List.cons_append], ?_, hm, ht', rfl⟩
              intro m' hm'
              rcases List.mem_cons.mp hm' with rfl | hm'
              · exact Or.inr ⟨u, ha, hue⟩
              · exact hpre m' hm'
            · rintro ⟨pre, m, post, t', heq, hpre, hm, ht', rfl⟩
              cases pre with
              | nil =>
                  simp only [List.nil_append, List.cons.injEq] at heq
                  rw [← heq.1] at hm
                  rw [hm] at ha
                  cases ha
                  exact absurd hue ht'
              | cons b pre' =>
                  simp only [List.cons_append, List.cons.injEq] at heq
                  exact ⟨pre', m, post, t', heq.2, fun m' hm' =>
                    hpre m' (List.mem_cons_of_mem _ hm'), hm, ht', rfl⟩
      | failure e =>
          dsimp only
          rw [ih e]
          constructor
          · rintro ⟨pre, m, post, t', heq, hpre, hm, ht', rfl⟩
            refine ⟨a :: pre, m, post, t', by rw [heq, List.cons_append], ?_, hm, ht', rfl⟩
            intro m' hm'
            rcases List.mem_cons.mp hm' with rfl | hm'
            · exact Or.inl ⟨e, ha⟩
            · exact hpre m' hm'
          · rintro ⟨pre, m, post, t', heq, hpre, hm, ht', rfl⟩
            cases pre with
            | nil =>
                simp only [List.nil_append, List.cons.injEq] at heq
                rw [← heq.1] at hm
                rw [hm] at ha
                cases ha
            | cons b pre' =>
                simp only [List.cons_append, List.cons.injEq] at heq
                exact ⟨pre', m, post, t', heq.2, fun m' hm' =>
                  hpre m' (List.mem_cons_of_mem _ hm'), hm, ht', rfl⟩

theorem tryChatPass_error_val (chat : String → ApiResult) :
    ∀ (models : List String) (e0 : String), models ≠ [] →
      (∀ t, tryChatPass chat models e0 ≠ .ok t) →
      tryChatPass chat models e0 = .error (lastChatErr chat (models.getLastD "")) := by
  intro models
  induction models with
  | nil => intro e0 h; cases h rfl
  | cons a rest ih =>
      intro e0 _ hnone
      rw [tryChatPass]
      cases ha : chat a with
      | success u =>
          dsimp only
          by_cases hu : pyStrip u ≠ ""
          · exfalso
            apply hnone (pyStrip u)
            rw [tryChatPass, ha]
            dsimp only
            rw [if_pos hu]
          · rw [if_neg hu]
            cases rest with
            | nil =>
                rw [tryChatPass]
                simp [List.getLastD, lastChatErr, ha]
            | cons b r =>
                have heq := ih "Empty response from chat.completions."
                  (by simp) (by
                    intro t ht
                    apply hnone t
                    rw [tryChatPass, ha]
                    dsimp only
                    rw [if_neg hu]
                    exact ht)
                rw [heq]
                simp [List.getLastD]
      | failure e =>
          dsimp only
          cases rest with
          | nil =>
              rw [tryChatPass]
              simp [List.getLastD, lastChatErr, ha]
          | cons b r =>
              have heq := ih e (by simp) (by
                intro t ht
                apply hnone t
                rw [tryChatPass, ha]
                dsimp only
                exact ht)
              rw [heq]
              simp [List.getLastD]

/-- **C1.** The generation operation tries the ordered model list
(primary followed by the deduplicated fallbacks) under the Responses
protocol, returning the first success immediately even on a later
model; a permission-scope failure abandons the rest of pass 1 (the
outcome is then independent of the skipped models' Responses outcomes)
and the Chat Completions protocol is tried over the same list, where an
empty successful result is treated as a failure and the loop continues;
and the operation raises the `GenerationFailed`-style error — the last
recorded error wrapped with the fixed credential-permissions hint — if
and only if every attempt in both passes is exhausted without
returning. -/
theorem c1_generation_fallback (o : GenOracle) (apiKey cfgModel cfgFallbacks : String)
    (hkey : pyStrip apiKey ≠ "") :
    (∀ pre m post t, models_to_try cfgModel cfgFallbacks = pre ++ m :: post →
      nonScopeFailures o.responses pre → o.responses m = .success t →
      call_openai_metadata o apiKey cfgModel cfgFallbacks = .ok (pyStrip t)) ∧
    (∀ pre m post e, models_to_try cfgModel cfgFallbacks = pre ++ m :: post →
      nonScopeFailures o.responses pre → o.responses m = .failure e →
      scopeBreak e = true →
      ∀ o' : GenOracle, o'.chat = o.chat →
        (∀ m' ∈ pre, o'.responses m' = o.responses m') →
        o'.responses m = o.responses m →
        call_openai_metadata o' apiKey cfgModel cfgFallbacks =
          call_openai_metadata o apiKey cfgModel cfgFallbacks) ∧
    (∀ pre m post t, models_to_try cfgModel cfgFallbacks = pre ++ m :: post →
      ¬ firstProtocolReturns o (models_to_try cfgModel cfgFallbacks) →
      (∀ m' ∈ pre, chatSkips o m') → o.chat m = .success t → pyStrip t ≠ "" →
      call_openai_metadata o apiKey cfgModel cfgFallbacks = .ok (pyStrip t)) ∧
    ((∃ msg, call_openai_metadata o apiKey cfgModel cfgFallbacks = .error msg) ↔
      ¬ firstProtocolReturns o (models_to_try cfgModel cfgFallbacks) ∧
      ¬ secondProtocolReturns o (models_to_try cfgModel cfgFallbacks)) ∧
    (∀ msg, call_openai_metadata o apiKey cfgModel cfgFallbacks = .error msg →
      msg = genFailMsg (lastChatErr o.chat
        ((models_to_try cfgModel cfgFallbacks).getLastD ""))) := by
  set models := models_to_try cfgModel cfgFallbacks with hmodels
  have hmne : models ≠ [] := by
    rw [hmodels, models_to_try]
    exact List.cons_ne_nil _ _
  have hcall : ∀ og : GenOracle, call_openai_metadata og apiKey cfgModel cfgFallbacks =
      (match tryResponsesPass og.responses models "" with
       | .ok t => .ok t
       | .error e1 =>
           match tryChatPass og.chat models e1 with
           | .ok t => .ok t
           | .error e2 => .error (genFailMsg e2)) := by
    intro og
    rw [call_openai_metadata, if_neg hkey]
  have hfirst_iff : ∀ t, tryResponsesPass o.responses models "" = .ok t ↔
      ∃ pre m post t', models = pre ++ m :: post ∧ nonScopeFailures o.responses pre ∧
        o.responses m = .success t' ∧ t = pyStrip t' :=
    fun t => tryResponsesPass_ok_iff o.responses models "" t
  refine ⟨?_, ?_, ?_, ?_, ?_⟩
  · -- (i) first pass returns the first success immediately
    intro pre m post t heq hpre hm
    have hok : tryResponsesPass o.responses models "" = .ok (pyStrip t) :=
      (hfirst_iff (pyStrip t)).mpr ⟨pre, m, post, t, heq, hpre, hm, rfl⟩
    rw [hcall o, hok]
  · -- (ii) scope break: skipped models do not matter
    intro pre m post e heq hpre hm hs o' hchat hpres hm'
    have herr : tryResponsesPass o.responses models "" = .error e := by
      rw [heq]
      exact tryResponsesPass_scope_break o.responses pre m post e "" hpre hm hs
    have herr' : tryResponsesPass o'.responses models "" = .error e := by
      rw [heq]
      refine tryResponsesPass_scope_break o'.responses pre m post e "" ?_ ?_ hs
      · intro m'' hm''
        obtain ⟨e'', hf, hsb⟩ := hpre m'' hm''
        exact ⟨e'', by rw [hpres m'' hm'']; exact hf, hsb⟩
      · rw [hm', hm]
    rw [hcall o, hcall o', herr, herr', hchat]
  · -- (iii) second pass: empty successes are skipped, first non-empty wins
    intro pre m post t heq hnf hpre hm ht
    have herr1 : ∃ e1, tryResponsesPass o.responses models "" = .error e1 := by
      cases hres : tryResponsesPass o.responses models "" with
      | ok t' =>
          obtain ⟨p, mm, pp, tt, h1, h2, h3, -⟩ := (hfirst_iff t').mp hres
          exact absurd ⟨p, mm, pp, tt, h1, h2, h3⟩ hnf
      | error e1 => exact ⟨e1, rfl⟩
    obtain ⟨e1, herr1⟩ := herr1
    have hok2 : tryChatPass o.chat models e1 = .ok (pyStrip t) :=
      (tryChatPass_ok_iff o.chat models e1 (pyStrip t)).mpr
        ⟨pre, m, post, t, heq, fun m' hm' => hpre m' hm', hm, ht, rfl⟩
    rw [hcall o, herr1]
    dsimp only
    rw [hok2]
  · -- (iv) an error is raised iff both passes exhaust
    constructor
    · rintro ⟨msg, hmsg⟩
      rw [hcall o] at hmsg
      cases hres : tryResponsesPass o.responses models "" with
      | ok t' =>
          rw [hres] at hmsg
          dsimp only at hmsg
          cases hmsg
      | error e1 =>
          rw [hres] at hmsg
          dsimp only at hmsg
          cases hres2 : tryChatPass o.chat models e1 with
          | ok t' =>
              rw [hres2] at hmsg
              dsimp only at hmsg
              cases hmsg
          | error e2 =>
              constructor
              · rintro ⟨pre, m, post, t, h1, h2, h3⟩
                have := (hfirst_iff (pyStrip t)).mpr ⟨pre, m, post, t, h1, h2, h3, rfl⟩
                rw [this] at hres
                cases hres
              · rintro ⟨pre, m, post, t, h1, h2, h3, h4⟩
                have := (tryChatPass_ok_iff o.chat models e1 (pyStrip t)).mpr
                  ⟨pre, m, post, t, h1, h2, h3, h4, rfl⟩
                rw [this] at hres2
                cases hres2
    · rintro ⟨hnf, hns⟩
      cases hres : tryResponsesPass o.responses models "" with
      | ok t' =>
          obtain ⟨p, mm, pp, tt, h1, h2, h3, -⟩ := (hfirst_iff t').mp hres
          exact absurd ⟨p, mm, pp, tt, h1, h2, h3⟩ hnf
      | error e1 =>
          cases hres2 : tryChatPass o.chat models e1 with
          | ok t' =>
              obtain ⟨p, mm, pp, tt, h1, h2, h3, h4, -⟩ :=
                (tryChatPass_ok_iff o.chat models e1 t').mp hres2
              exact absurd ⟨p, mm, pp, tt, h1, h2, h3, h4⟩ hns
          | error e2 =>
              refine ⟨genFailMsg e2, ?_⟩
              rw [hcall o, hres]
              dsimp only
              rw [hres2]
  · -- (v) the raised error wraps the last recorded error with the hint
    intro msg hmsg
    rw [hcall o] at hmsg
    cases hres : tryResponsesPass o.responses models "" with
    | ok t' =>
        rw [hres] at hmsg
        dsimp only at hmsg
        cases hmsg
    | error e1 =>
        rw [hres] at hmsg
        dsimp only at hmsg
        cases hres2 : tryChatPass o.chat models e1 with
        | ok t' =>
            rw [hres2] at hmsg
            dsimp only at hmsg
            cases hmsg
        | error e2 =>
            rw [hres2] at hmsg
            dsimp only at hmsg
            cases hmsg
            have hval := tryChatPass_error_val o.chat models e1 hmne
              (by intro t ht; rw [ht] at hres2; cases hres2)
            rw [hres2] at hval
            cases hval
            rfl

/-- Witness for `c1_generation_fallback`: a primary-model Responses
success is returned (stripped) at once. -/
theorem c1_generation_fallback_witness :
    call_openai_metadata
      ⟨fun _ => ApiResult.success " out ", fun _ => ApiResult.failure "e"⟩
      "key" "m" "" = .ok "out" := by
  have h :=
    (c1_generation_fallback
      ⟨fun _ => ApiResult.success " out ", fun _ => ApiResult.failure "e"⟩
      "key" "m" "" (by decide)).1 [] "m" [] " out " (by decide)
      (fun m hm => absurd hm (List.not_mem_nil m)) rfl
  rw [h]
  rw [show pyStrip " out " = "out" from by decide]

end FT
